import Mathlib

/-!
Verification of the multi-tenant RAG chatbot service (BOT/app_20.py,
UPDATER/updater.py, Scraping2/pipelines.py, Scraping2/add_manual_knowledge.py)
against its natural-language specification.

Python strings are modelled as `List Char` (`Str`).  Python's `re` module is
modelled by a small backtracking regular-expression engine with Python's
leftmost / greedy / ordered-alternation match preference.  External
collaborators (embedding model, cross-encoder, vector store, LLM, SHA-256,
body-text extraction) are opaque parameters; everything else is translated
from the source.
-/

set_option maxRecDepth 20000

abbrev Str := List Char

/-- Python whitespace characters (`str.strip()` default set / `\s`, ASCII range). -/
def pyIsSpace (c : Char) : Bool :=
  c = ' ' || c = '\t' || c = '\n' || c = '\x0d' || c = Char.ofNat 11 || c = Char.ofNat 12

/-- `str.strip()` : drop whitespace from both ends. -/
def pyStrip (s : Str) : Str :=
  ((s.dropWhile pyIsSpace).reverse.dropWhile pyIsSpace).reverse

/-- `str.strip(chars)` : drop characters of `cs` from both ends. -/
def pyStripChars (cs : List Char) (s : Str) : Str :=
  ((s.dropWhile (cs.contains ·)).reverse.dropWhile (cs.contains ·)).reverse

/-- `str.rstrip(chars)`. -/
def pyRStripChars (cs : List Char) (s : Str) : Str :=
  (s.reverse.dropWhile (cs.contains ·)).reverse

/-- `str.lower()` (ASCII). -/
def pyLower (s : Str) : Str := s.map Char.toLower

/-- Convert a Lean string literal to the model representation. -/
def pyStr (s : String) : Str := s.toList

/-- `str.split()` with no argument: split on whitespace runs, no empty parts. -/
def pySplitWs (s : Str) : List Str :=
  let rec go : Str → Str → List Str
    | [], acc => if acc = [] then [] else [acc.reverse]
    | c :: rest, acc =>
      if pyIsSpace c then
        if acc = [] then go rest [] else acc.reverse :: go rest []
      else go rest (c :: acc)
  go s []

/-- `sep.join(parts)` for a single-character separator. -/
def pyJoinChar (sep : Char) : List Str → Str
  | [] => []
  | [p] => p
  | p :: ps => p ++ sep :: pyJoinChar sep ps

/-- `str.split(sep)` for a single-character separator (keeps empty parts). -/
def pySplitOn (sep : Char) (s : Str) : List Str :=
  let rec go : Str → Str → List Str
    | [], acc => [acc.reverse]
    | c :: rest, acc =>
      if c = sep then acc.reverse :: go rest [] else go rest (c :: acc)
  go s []

/-- substring containment (`needle in haystack` for Python strings). -/
def pyContains (haystack needle : Str) : Bool :=
  match haystack with
  | [] => needle = []
  | _ :: rest => needle.isPrefixOf haystack || pyContains rest needle

/-- count of characters satisfying `p`. -/
def countChars (p : Char → Bool) (s : Str) : Nat :=
  (s.filter p).length

/-- `str.replace(old, new)` : replace every occurrence, scanning left to right. -/
def pyReplace (old new : Str) (s : Str) : Str :=
  let rec go : Str → Str
    | [] => []
    | c :: rest =>
      if old ≠ [] ∧ old.isPrefixOf (c :: rest) then
        new ++ go ((c :: rest).drop old.length)
      else
        c :: go rest
    termination_by s => s.length
    decreasing_by
      · simp only [List.length_drop, List.length_cons]
        have : old.length ≠ 0 := by
          rcases h : old with _ | _ <;> simp_all
        omega
      · simp
  go s

/-- `str.startswith(p)` (on model strings). -/
def pyStartsWith (p s : Str) : Bool := p.isPrefixOf s

/-! ## A Python-`re` style backtracking regex engine

Constructors cover exactly the constructs used by the source's patterns:
character classes, concatenation, ordered alternation, greedy `?`,
greedy counted repetition of a character class (`{m,n}`, `{m,}`, `*`, `+`
all repeat single-character classes in the source's patterns), the word
boundary `\b`, an end-of-input anchor for `$`, and a capture-group marker
(each pattern of the source has at most one group, always at the tail). -/

inductive RE where
  | eps
  | cls (p : Char → Bool)
  | cat (a b : RE)
  | alt (a b : RE)
  | opt (a : RE)
  /-- greedy `p{m, m + budget}` where `budget = none` means unbounded. -/
  | repCls (m : Nat) (budget : Option Nat) (p : Char → Bool)
  | wb
  | eos
  | mark

/-- size used as termination measure for the matcher. -/
def reSize : RE → Nat
  | .eps => 1
  | .cls _ => 1
  | .cat a b => reSize a + reSize b + 1
  | .alt a b => reSize a + reSize b + 1
  | .opt a => reSize a + 1
  | .repCls m _ _ => m + 2
  | .wb => 1
  | .eos => 1
  | .mark => 1

def resSize : List RE → Nat
  | [] => 0
  | r :: rs => reSize r + resSize rs

/-- Python word character (`\w`, ASCII range). -/
def isWordChar (c : Char) : Bool := c.isAlphanum || c = '_'

def atWordBoundary (pc : Option Char) (s : Str) : Bool :=
  let l := match pc with | some c => isWordChar c | none => false
  let r := match s with | c :: _ => isWordChar c | [] => false
  l != r

/-- Run a sequence of regexes against `s` with previous character `pc`,
returning the unconsumed remainder and the remainder recorded at the
(unique) `mark`, following Python's backtracking preference order:
alternation tries the left branch first, `?` and repetitions are greedy.
Every recursive call strictly decreases `(s.length, resSize rs)`
lexicographically and `resSize rs` never grows along a path, so a fuel of
`(s.length + 1) * (resSize rs + 1)` always suffices; the fuel makes the
function structurally recursive so that it evaluates inside the kernel. -/
def reRun : Nat → List RE → Option Char → Str → Option (Str × Option Str)
  | 0, _, _, _ => none
  | _ + 1, [], _, s => some (s, none)
  | fuel + 1, .eps :: rs, pc, s => reRun fuel rs pc s
  | _ + 1, .cls _ :: _, _, [] => none
  | fuel + 1, .cls p :: rs, _, c :: rest =>
    if p c then reRun fuel rs (some c) rest else none
  | fuel + 1, .cat a b :: rs, pc, s => reRun fuel (a :: b :: rs) pc s
  | fuel + 1, .alt a b :: rs, pc, s =>
    (reRun fuel (a :: rs) pc s) <|> (reRun fuel (b :: rs) pc s)
  | fuel + 1, .opt a :: rs, pc, s =>
    (reRun fuel (a :: rs) pc s) <|> (reRun fuel rs pc s)
  | _ + 1, .repCls (_ + 1) _ _ :: _, _, [] => none
  | fuel + 1, .repCls (m + 1) bud p :: rs, _, c :: rest =>
    if p c then reRun fuel (.repCls m bud p :: rs) (some c) rest else none
  | fuel + 1, .repCls 0 (some 0) _ :: rs, pc, s => reRun fuel rs pc s
  | fuel + 1, .repCls 0 (some (_ + 1)) _ :: rs, pc, [] => reRun fuel rs pc []
  | fuel + 1, .repCls 0 (some (b + 1)) p :: rs, pc, c :: rest =>
    if p c then
      (reRun fuel (.repCls 0 (some b) p :: rs) (some c) rest) <|> (reRun fuel rs pc (c :: rest))
    else reRun fuel rs pc (c :: rest)
  | fuel + 1, .repCls 0 none _ :: rs, pc, [] => reRun fuel rs pc []
  | fuel + 1, .repCls 0 none p :: rs, pc, c :: rest =>
    if p c then
      (reRun fuel (.repCls 0 none p :: rs) (some c) rest) <|> (reRun fuel rs pc (c :: rest))
    else reRun fuel rs pc (c :: rest)
  | fuel + 1, .wb :: rs, pc, s => if atWordBoundary pc s then reRun fuel rs pc s else none
  | fuel + 1, .eos :: rs, pc, s => if s = [] then reRun fuel rs pc s else none
  | fuel + 1, .mark :: rs, pc, s =>
    match reRun fuel rs pc s with
    | some (rem, _) => some (rem, some s)
    | none => none

/-- sufficient fuel to run pattern `r` (plus anchors) against `s`. -/
def reFuel (r : RE) (s : Str) : Nat := (s.length + 1) * (reSize r + 4) + 4

/-- Length of the (Python-preferred) match of `r` at the start of `s`,
together with the capture-group text when the pattern has a mark. -/
def reMatchAt (r : RE) (pc : Option Char) (s : Str) : Option (Nat × Option Str) :=
  match reRun (reFuel r s) [r] pc s with
  | none => none
  | some (rem, m) =>
    let grp := m.map (fun sm => sm.take (sm.length - rem.length))
    some (s.length - rem.length, grp)

/-- `re.match(p, s)` where `p` is anchored with a trailing `$`:
accept iff some backtracking path consumes the whole string. -/
def reFullMatch (r : RE) (s : Str) : Bool :=
  (reRun (reFuel r s) [r, .eos] none s).isSome

/-- `re.findall(p, s)` : leftmost non-overlapping scan.  When the pattern
has a capture group the group text is returned, otherwise the whole match.
Empty matches are emitted and the scan advances one character (Python
behaviour; the source's patterns never match empty). -/
def reFindAllGo (r : RE) : Nat → Option Char → Str → List Str
  | 0, _, _ => []
  | _ + 1, pc, [] =>
    match reMatchAt r pc [] with
    | some (_, grp) => [grp.getD []]
    | none => []
  | fuel + 1, pc, c :: rest =>
    match reMatchAt r pc (c :: rest) with
    | some (0, grp) => grp.getD [] :: reFindAllGo r fuel (some c) rest
    | some (n + 1, grp) =>
      let s := c :: rest
      (grp.getD (s.take (n + 1))) ::
        reFindAllGo r fuel (s.get? n) (s.drop (n + 1))
    | none => reFindAllGo r fuel (some c) rest

def reFindAll (r : RE) (s : Str) : List Str :=
  reFindAllGo r (s.length + 1) none s

/-! regex building blocks -/

/-- a literal character (case-sensitive). -/
def reChr (c : Char) : RE := .cls (fun x => x = c)

/-- a literal character under `re.IGNORECASE`. -/
def reIChr (c : Char) : RE := .cls (fun x => x.toLower = c.toLower)

def reSeq (l : List RE) : RE := l.foldr .cat .eps

/-- a literal word (case-sensitive). -/
def reStrLit (w : String) : RE := reSeq (w.toList.map reChr)

/-- a literal word under `re.IGNORECASE`. -/
def reIStrLit (w : String) : RE := reSeq (w.toList.map reIChr)

def reDigit : RE := .cls Char.isDigit
def reRep (m n : Nat) (p : Char → Bool) : RE := .repCls m (some (n - m)) p
def reRepAtLeast (m : Nat) (p : Char → Bool) : RE := .repCls m none p
def reStarCls (p : Char → Bool) : RE := .repCls 0 none p
def rePlusCls (p : Char → Bool) : RE := .repCls 1 none p
def reWs : RE := reStarCls pyIsSpace

/-- `[-.\s]` -/
def sepChar (c : Char) : Bool := c = '-' || c = '.' || pyIsSpace c

example : reFullMatch (reSeq [.opt (reChr '+'), reRep 1 3 Char.isDigit]) (pyStr "+12") = true := by
  decide

example : reFindAll (reSeq [rePlusCls Char.isDigit]) (pyStr "ab12 7x") = [pyStr "12", pyStr "7"] := by
  decide

/-! ## 4.A Validators (`LeadValidator`, app_20.py lines 82-221) -/

def apos : Char := Char.ofNat 39

/-- `LeadValidator.validate_name` (app_20.py 86-124).  The float comparison
`digit_count / len(name) > 0.3` is modelled exactly as `10 * digits > 3 * len`:
with `len ≤ 100` the rational gap to `3/10` is at least `1/1000`, far above
double-precision rounding error, so the float and rational comparisons agree. -/
def validate_name (name : Str) : Bool × Str :=
  if name = [] then (false, pyStr "Name cannot be empty.")
  else
    let n := pyStrip name
    if n.length < 2 then (false, pyStr "Name must be at least 2 characters long.")
    else if 100 < n.length then (false, pyStr "Name is too long (maximum 100 characters).")
    else if ¬ n.any Char.isAlpha then (false, pyStr "Name must contain at least one letter.")
    else if 3 * n.length < 10 * countChars Char.isDigit n then
      (false, pyStr "Name contains too many numbers. Please provide a valid name.")
    else if ¬ n.all (fun c => c.isAlpha || c = ' ' || c = apos || c = '-' || c = '.') then
      (false, pyStr "Name contains invalid character.")
    else if n.length / 2 < countChars (fun c => c = apos || c = '-' || c = '.') n then
      (false, pyStr "Name contains too many special characters.")
    else (true, [])

/-- the email shape regex of `validate_email` (app_20.py line 145). -/
def emailShapeRE : RE :=
  reSeq [.cls (fun c => c.isAlpha || c.isDigit),
         reStarCls (fun c => c.isAlpha || c.isDigit || c = '.' || c = '_' || c = '%' || c = '+' || c = '-'),
         reChr '@',
         .cls (fun c => c.isAlpha || c.isDigit),
         reStarCls (fun c => c.isAlpha || c.isDigit || c = '.' || c = '-'),
         reChr '.',
         reRepAtLeast 2 Char.isAlpha]

/-- `LeadValidator.validate_email` (app_20.py 126-181). -/
def validate_email (email : Str) : Bool × Str :=
  if email = [] then (false, pyStr "Email cannot be empty.")
  else
    let e := pyLower (pyStrip email)
    if e.length < 5 then (false, pyStr "Email is too short.")
    else if 254 < e.length then (false, pyStr "Email is too long (maximum 254 characters).")
    else if ¬ reFullMatch emailShapeRE e then
      (false, pyStr "Invalid email format. Please provide a valid email address (e.g., user@example.com).")
    else if countChars (fun c => c = '@') e ≠ 1 then
      (false, pyStr "Email must contain exactly one @ symbol.")
    else
      let local_part := (pySplitOn '@' e).headD []
      let domain_part := ((pySplitOn '@' e).get? 1).getD []
      if local_part = [] || 64 < local_part.length then
        (false, pyStr "Invalid email format (local part issue).")
      else if pyStartsWith [Char.ofNat 46] local_part || pyStartsWith [Char.ofNat 46] local_part.reverse then
        (false, pyStr "Email cannot start or end with a period.")
      else if pyContains local_part (pyStr "..") then
        (false, pyStr "Email cannot contain consecutive periods.")
      else if domain_part = [] || domain_part.length < 3 then
        (false, pyStr "Invalid email domain.")
      else if pyStartsWith (pyStr ".") domain_part || pyStartsWith (pyStr ".") domain_part.reverse
           || pyStartsWith (pyStr "-") domain_part || pyStartsWith (pyStr "-") domain_part.reverse then
        (false, pyStr "Invalid email domain format.")
      else if pyContains domain_part (pyStr "..") then
        (false, pyStr "Email domain cannot contain consecutive periods.")
      else if ¬ domain_part.contains '.' then
        (false, pyStr "Email domain must contain at least one period.")
      else (true, [])

/-! the six phone shapes of `LeadValidator.validate_phone` (app_20.py 202-209) -/

def vp1 : RE :=   -- `^\+?1?\s*\(?[0-9]{3}\)?\s*[-.\s]?[0-9]{3}[-.\s]?[0-9]{4}$`
  reSeq [.opt (reChr '+'), .opt (reChr '1'), reWs, .opt (reChr '('),
         reRep 3 3 Char.isDigit, .opt (reChr ')'), reWs, .opt (.cls sepChar),
         reRep 3 3 Char.isDigit, .opt (.cls sepChar), reRep 4 4 Char.isDigit]

def vp2 : RE :=   -- `^\+?[0-9]{1,4}\s*\(?[0-9]{2,4}\)?\s*[-.\s]?[0-9]{3,4}[-.\s]?[0-9]{3,4}$`
  reSeq [.opt (reChr '+'), reRep 1 4 Char.isDigit, reWs, .opt (reChr '('),
         reRep 2 4 Char.isDigit, .opt (reChr ')'), reWs, .opt (.cls sepChar),
         reRep 3 4 Char.isDigit, .opt (.cls sepChar), reRep 3 4 Char.isDigit]

def vp3 : RE := reRep 10 10 Char.isDigit   -- `^[0-9]{10}$`

def vp4 : RE :=   -- `^[0-9]{3}[-.\s][0-9]{3}[-.\s][0-9]{4}$`
  reSeq [reRep 3 3 Char.isDigit, .cls sepChar, reRep 3 3 Char.isDigit,
         .cls sepChar, reRep 4 4 Char.isDigit]

def vp5 : RE :=   -- `^\([0-9]{3}\)\s*[0-9]{3}[-.\s]?[0-9]{4}$`
  reSeq [reChr '(', reRep 3 3 Char.isDigit, reChr ')', reWs,
         reRep 3 3 Char.isDigit, .opt (.cls sepChar), reRep 4 4 Char.isDigit]

def vp6 : RE :=   -- `^\+[0-9]{1,3}\s*[0-9]{9,12}$`
  reSeq [reChr '+', reRep 1 3 Char.isDigit, reWs, reRep 9 12 Char.isDigit]

def phoneShapes : List RE := [vp1, vp2, vp3, vp4, vp5, vp6]

def phoneShapeMatch (p : Str) : Bool := phoneShapes.any (fun r => reFullMatch r p)

/-- `LeadValidator.validate_phone` (app_20.py 183-221). -/
def validate_phone (phone : Str) : Bool × Str :=
  if phone = [] then (false, pyStr "Phone number cannot be empty.")
  else
    let p := pyStrip phone
    if p.length < 7 then (false, pyStr "Phone number is too short (minimum 7 characters).")
    else if 20 < p.length then (false, pyStr "Phone number is too long (maximum 20 characters).")
    else if ¬ phoneShapeMatch p then
      (false, pyStr "Invalid phone number format. Please provide a valid phone number (e.g., +1-234-567-8900 or (123) 456-7890).")
    else if countChars Char.isDigit p < 10 then
      (false, pyStr "Phone number must contain at least 10 digits.")
    else (true, [])

/-! ## 4.B Contact extractor (`ContactInformationExtractor`, app_20.py 224-321)

All extractor patterns are applied with `re.IGNORECASE`; literal letters use
`reIChr`.  Patterns 5 (email) and 6 (phone) each have one capture group at
the pattern tail, modelled with `.mark`. -/

def clsEmailLocalFull (c : Char) : Bool :=
  c.isAlpha || c.isDigit || c = '.' || c = '_' || c = '%' || c = '+' || c = '-'

def clsEmailLocalNoPlus (c : Char) : Bool :=
  c.isAlpha || c.isDigit || c = '.' || c = '_' || c = '%' || c = '-'

def clsDomain (c : Char) : Bool := c.isAlpha || c.isDigit || c = '.' || c = '-'

def clsAlnum (c : Char) : Bool := c.isAlpha || c.isDigit

def ep1 : RE :=   -- `\b[a-zA-Z0-9._%+-]+@[a-zA-Z0-9.-]+\.[a-zA-Z]{2,}\b`
  reSeq [.wb, rePlusCls clsEmailLocalFull, reChr '@', rePlusCls clsDomain,
         reChr '.', reRepAtLeast 2 Char.isAlpha, .wb]

def ep2 : RE :=   -- `\b[a-zA-Z0-9._%-]+\s*@\s*[a-zA-Z0-9.-]+\s*\.\s*[a-zA-Z]{2,}\b`
  reSeq [.wb, rePlusCls clsEmailLocalNoPlus, reWs, reChr '@', reWs,
         rePlusCls clsDomain, reWs, reChr '.', reWs, reRepAtLeast 2 Char.isAlpha, .wb]

def ep3 : RE :=   -- `\b[a-zA-Z0-9]+[._-]*[a-zA-Z0-9]*@[a-zA-Z0-9]+[.-]*[a-zA-Z0-9]*\.[a-zA-Z]{2,}\b`
  reSeq [.wb, rePlusCls clsAlnum, reStarCls (fun c => c = '.' || c = '_' || c = '-'),
         reStarCls clsAlnum, reChr '@', rePlusCls clsAlnum,
         reStarCls (fun c => c = '.' || c = '-'), reStarCls clsAlnum,
         reChr '.', reRepAtLeast 2 Char.isAlpha, .wb]

def ep4 : RE :=   -- `[a-zA-Z0-9._%+-]+@[a-zA-Z0-9.-]+\.[a-zA-Z]{2,}`
  reSeq [rePlusCls clsEmailLocalFull, reChr '@', rePlusCls clsDomain,
         reChr '.', reRepAtLeast 2 Char.isAlpha]

def ep5 : RE :=   -- `(?i)(?:email|mail|e-mail)\s*:?\s*([a-zA-Z0-9._%+-]+@[a-zA-Z0-9.-]+\.[a-zA-Z]{2,})`
  reSeq [.alt (reIStrLit "email") (.alt (reIStrLit "mail") (reIStrLit "e-mail")),
         reWs, .opt (reChr ':'), reWs, .mark,
         rePlusCls clsEmailLocalFull, reChr '@', rePlusCls clsDomain,
         reChr '.', reRepAtLeast 2 Char.isAlpha]

def emailPatterns : List RE := [ep1, ep2, ep3, ep4, ep5]

def hp1 : RE :=   -- `\+?1?[-.\s]?\(?[0-9]{3}\)?[-.\s]?[0-9]{3}[-.\s]?[0-9]{4}`
  reSeq [.opt (reChr '+'), .opt (reChr '1'), .opt (.cls sepChar), .opt (reChr '('),
         reRep 3 3 Char.isDigit, .opt (reChr ')'), .opt (.cls sepChar),
         reRep 3 3 Char.isDigit, .opt (.cls sepChar), reRep 4 4 Char.isDigit]

def hp2 : RE :=   -- `\+?[0-9]{1,4}[-.\s]?\(?[0-9]{3,4}\)?[-.\s]?[0-9]{3,4}[-.\s]?[0-9]{4,5}`
  reSeq [.opt (reChr '+'), reRep 1 4 Char.isDigit, .opt (.cls sepChar), .opt (reChr '('),
         reRep 3 4 Char.isDigit, .opt (reChr ')'), .opt (.cls sepChar),
         reRep 3 4 Char.isDigit, .opt (.cls sepChar), reRep 4 5 Char.isDigit]

def hp3 : RE :=   -- `\b(?:phone|tel|mobile|cell|contact)\s*:?\s*[\+]?[^\n]{7,60}\b`
  reSeq [.wb,
         .alt (reIStrLit "phone") (.alt (reIStrLit "tel")
           (.alt (reIStrLit "mobile") (.alt (reIStrLit "cell") (reIStrLit "contact")))),
         reWs, .opt (reChr ':'), reWs, .opt (reChr '+'),
         reRep 7 60 (fun c => c ≠ '\n'), .wb]

def hp4 : RE :=   -- `\b[0-9]{3}[-.\s][0-9]{3}[-.\s][0-9]{4}\b`
  reSeq [.wb, reRep 3 3 Char.isDigit, .cls sepChar, reRep 3 3 Char.isDigit,
         .cls sepChar, reRep 4 4 Char.isDigit, .wb]

def hp5 : RE :=   -- `\([0-9]{3}\)\s*[0-9]{3}[-.\s]?[0-9]{4}`
  reSeq [reChr '(', reRep 3 3 Char.isDigit, reChr ')', reWs,
         reRep 3 3 Char.isDigit, .opt (.cls sepChar), reRep 4 4 Char.isDigit]

def hp6 : RE :=   -- `(?i)(?:phone|tel|mobile|call)\s*:?\s*([\+]?[0-9\s\-\(\)\.]{7,20})`
  reSeq [.alt (reIStrLit "phone") (.alt (reIStrLit "tel")
           (.alt (reIStrLit "mobile") (reIStrLit "call"))),
         reWs, .opt (reChr ':'), reWs, .mark, .opt (reChr '+'),
         reRep 7 20 (fun c => c.isDigit || pyIsSpace c || c = '-' || c = '(' || c = ')' || c = '.')]

def phonePatterns : List RE := [hp1, hp2, hp3, hp4, hp5, hp6]

/-- Python's `set` has no specified iteration order; the model uses the most
predictable deterministic choice, a first-insertion-ordered set. -/
def addOrdered (l : List Str) (x : Str) : List Str :=
  if x ∈ l then l else l ++ [x]

def emailStripSet : List Char :=
  ['.', ',', ';', ':', '!', '?', '(', ')', '[', ']',
   Char.ofNat 123, Char.ofNat 125, Char.ofNat 34, apos]

/-- the cleaning applied to every email match:
`re.sub(r'\s+', '', str(match).lower())` then `strip('.,;:!?()[]{}"\'')`. -/
def emailClean (m : Str) : Str :=
  pyStripChars emailStripSet ((pyLower m).filter (fun c => ¬ pyIsSpace c))

/-- one accumulation step of `extract_emails` (app_20.py 262-270). -/
def emailStep (acc : List Str) (m : Str) : List Str :=
  if (emailClean m).contains '@'
      && (((pySplitOn '@' (emailClean m)).get? 1).getD []).contains '.'
      && 5 < (emailClean m).length then
    if (pySplitOn '@' (emailClean m)).length = 2
        && ((( pySplitOn '@' (emailClean m)).get? 0).getD []).length > 0
        && 2 < (((pySplitOn '@' (emailClean m)).get? 1).getD []).length then
      addOrdered acc (emailClean m)
    else acc
  else acc

/-- `ContactInformationExtractor.extract_emails` (app_20.py 256-274). -/
def extract_emails (text : Str) : List Str :=
  emailPatterns.foldl (fun acc pat => (reFindAll pat text).foldl emailStep acc) []

/-- one accumulation step of `extract_phones` (app_20.py 282-287):
`phone_clean = re.sub(r'[^\d\+]', '', match)`, keep when it has ≥ 10 chars. -/
def phoneStep (acc : List Str) (m : Str) : List Str :=
  if 10 ≤ (m.filter (fun c => c.isDigit || c = '+')).length then
    addOrdered acc (pyStrip m)
  else acc

/-- `ContactInformationExtractor.extract_phones` (app_20.py 276-291). -/
def extract_phones (text : Str) : List Str :=
  phonePatterns.foldl (fun acc pat => (reFindAll pat text).foldl phoneStep acc) []

structure ContactInfo where
  has_contact : Bool
  emails : List Str
  phones : List Str
  addresses : List Str
deriving Repr, DecidableEq

/-- `extract_all_contact_info` + `extract_contact_info` (app_20.py 293-316). -/
def extract_contact_info (text : Str) : ContactInfo :=
  if text = [] || pyStrip text = [] then ⟨false, [], [], []⟩
  else
    let es := extract_emails text
    let ps := extract_phones text
    ⟨!(es.isEmpty && ps.isEmpty), es, ps, []⟩

/-! ## C8: `validate_phone` acceptance condition -/

/-- C8: `validate_phone` accepts exactly when the trimmed string has length
in `[7, 20]`, matches one of the six allowed phone shapes, and contains at
least 10 digit characters; in particular a phone with 9 digits is always
rejected, and a 10-digit phone whose shape matches (such as `415-555-2671`)
is accepted. -/
theorem validate_phone_correct :
    (∀ s : Str, (validate_phone s).1 = true ↔
        7 ≤ (pyStrip s).length ∧ (pyStrip s).length ≤ 20 ∧
        phoneShapeMatch (pyStrip s) = true ∧
        10 ≤ countChars Char.isDigit (pyStrip s))
    ∧ (∀ s : Str, countChars Char.isDigit (pyStrip s) = 9 →
        (validate_phone s).1 = false)
    ∧ (validate_phone (pyStr "415-555-2671")).1 = true := by
  have main : ∀ s : Str, (validate_phone s).1 = true ↔
      7 ≤ (pyStrip s).length ∧ (pyStrip s).length ≤ 20 ∧
      phoneShapeMatch (pyStrip s) = true ∧
      10 ≤ countChars Char.isDigit (pyStrip s) := by
    intro s
    by_cases hs : s = []
    · subst hs
      constructor
      · intro h; simp [validate_phone] at h
      · rintro ⟨h1, -⟩; exact absurd h1 (by decide)
    · unfold validate_phone
      simp only [if_neg hs]
      split_ifs with h1 h2 h3 h4 <;>
        first
          | (simp only [false_iff]; rintro ⟨a, b, c, d⟩; first | omega | exact h3 c)
          | (simp only [true_iff];
              refine ⟨by omega, by omega, ?_, by omega⟩; simpa using h3)
  refine ⟨main, fun s h9 => ?_, by decide⟩
  cases hb : (validate_phone s).1 with
  | false => rfl
  | true => have := (main s).mp hb; omega

/-- witness for `validate_phone_correct`: concrete instantiations
discharging its hypotheses. -/
theorem validate_phone_correct_witness :
    ((validate_phone (pyStr "1234567890")).1 = true ↔
        7 ≤ (pyStrip (pyStr "1234567890")).length ∧
        (pyStrip (pyStr "1234567890")).length ≤ 20 ∧
        phoneShapeMatch (pyStrip (pyStr "1234567890")) = true ∧
        10 ≤ countChars Char.isDigit (pyStrip (pyStr "1234567890")))
    ∧ countChars Char.isDigit (pyStrip (pyStr "123-456-789")) = 9
    ∧ (validate_phone (pyStr "123-456-789")).1 = false :=
  ⟨validate_phone_correct.1 (pyStr "1234567890"), by decide,
   validate_phone_correct.2.1 (pyStr "123-456-789") (by decide)⟩

/-! ## C7: extractor deduplication and output order -/

/-- index of the first occurrence of `needle` in `hay` (Python `str.find`). -/
def firstIndexOf (hay needle : Str) : Option Nat :=
  match hay with
  | [] => if needle = [] then some 0 else none
  | _ :: rest =>
    if needle.isPrefixOf hay then some 0
    else (firstIndexOf rest needle).map (· + 1)

lemma foldl_preserve {α β : Type} {P : β → Prop} {f : β → α → β}
    (hf : ∀ b a, P b → P (f b a)) :
    ∀ (l : List α) (b : β), P b → P (l.foldl f b) := by
  intro l
  induction l with
  | nil => intro b hb; simpa using hb
  | cons a t ih => intro b hb; simpa using ih (f b a) (hf b a hb)

lemma addOrdered_nodup (l : List Str) (x : Str) (h : l.Nodup) :
    (addOrdered l x).Nodup := by
  unfold addOrdered
  split
  · exact h
  · next hx => simp [List.nodup_append, h, hx]

lemma emailStep_nodup (acc : List Str) (m : Str) (h : acc.Nodup) :
    (emailStep acc m).Nodup := by
  unfold emailStep
  repeat' split
  all_goals first | exact addOrdered_nodup _ _ h | exact h

lemma phoneStep_nodup (acc : List Str) (m : Str) (h : acc.Nodup) :
    (phoneStep acc m).Nodup := by
  unfold phoneStep
  split
  · exact addOrdered_nodup _ _ h
  · exact h

/-- C7 (amended): both extractors return duplicate-free lists — every
extracted value appears exactly once. -/
theorem extract_contact_nodup (t : Str) :
    (extract_emails t).Nodup ∧ (extract_phones t).Nodup := by
  constructor
  · exact foldl_preserve
      (fun acc pat h => foldl_preserve emailStep_nodup (reFindAll pat t) acc h)
      emailPatterns [] List.nodup_nil
  · exact foldl_preserve
      (fun acc pat h => foldl_preserve phoneStep_nodup (reFindAll pat t) acc h)
      phonePatterns [] List.nodup_nil

/-- C7 (counterexample): on
`"(415)  555-2671 and 415-555-2671"` the extractor's output is *not* in the
order of first occurrence in the text: `"(415)  555-2671"` occurs at
index 0 and `"415-555-2671"` only at index 20, yet the returned list is
`["415-555-2671", "(415)  555-2671"]` — the first pattern pass finds the
plainly-formatted number and the parenthesised number is only matched by a
later pattern, so it is appended after, regardless of text position. -/
theorem extract_phones_order_counterexample :
    extract_phones (pyStr "(415)  555-2671 and 415-555-2671")
      = [pyStr "415-555-2671", pyStr "(415)  555-2671"]
    ∧ firstIndexOf (pyStr "(415)  555-2671 and 415-555-2671")
        (pyStr "(415)  555-2671") = some 0
    ∧ firstIndexOf (pyStr "(415)  555-2671 and 415-555-2671")
        (pyStr "415-555-2671") = some 20
    ∧ pyStr "(415)  555-2671" ≠ pyStr "415-555-2671" := by
  refine ⟨by decide, by decide, by decide, by decide⟩

/-! ## 4.C Chunker (`ChunkingPipeline.process_item`, pipelines.py 48-107, and
`chunk_text`, add_manual_knowledge.py 23-75)

Both paths run the identical algorithm after `nltk.sent_tokenize`; the
tokenizer is an external collaborator, so the sentence list is a parameter
alongside the raw text (which the whole-text fallback uses). -/

/-- `potential_chunk = current_chunk + " " + sentence if current_chunk else sentence`
(pipelines.py 70); `s` is the already-stripped sentence. -/
def chunkPotential (current s : Str) : Str :=
  if current ≠ [] then current ++ ' ' :: s else s

/-- the re-seeded running chunk after an emission (pipelines.py 76-83):
the last `min(len(words), 15)` words of the old chunk, joined by single
spaces, followed by the current sentence; just the sentence when the old
chunk had no words. -/
def overlapSeed (current s : Str) : Str :=
  if 0 < min (pySplitWs current).length 15 then
    pyJoinChar ' '
      ((pySplitWs current).drop
        ((pySplitWs current).length - min (pySplitWs current).length 15))
      ++ ' ' :: s
  else s

/-- the sentence loop (pipelines.py 65-85 / add_manual_knowledge.py 39-59)
followed by the final tail append (87-88 / 61-62), returning the emitted
chunks; `current` is the running chunk. -/
def chunkLoop (maxc minc : Nat) : List Str → Str → List Str
  | [], current =>
    if current ≠ [] ∧ minc ≤ (pyStrip current).length then [pyStrip current] else []
  | sentence :: rest, current =>
    if pyStrip sentence = [] then chunkLoop maxc minc rest current
    else
      if maxc < (chunkPotential current (pyStrip sentence)).length ∧ current ≠ [] then
        if minc ≤ (pyStrip current).length then
          pyStrip current :: chunkLoop maxc minc rest (overlapSeed current (pyStrip sentence))
        else
          chunkLoop maxc minc rest (overlapSeed current (pyStrip sentence))
      else chunkLoop maxc minc rest (chunkPotential current (pyStrip sentence))

/-- the full chunking algorithm: loop, whole-text fallback
(pipelines.py 91-92), and the ≥ 3 words quality filter (98-101). -/
def chunkCore (maxc minc : Nat) (sentences : List Str) (text : Str) : List Str :=
  (if chunkLoop maxc minc sentences [] = [] ∧ minc ≤ (pyStrip text).length
   then [pyStrip text]
   else chunkLoop maxc minc sentences []).filter (fun c => 3 ≤ (pySplitWs c).length)

/-- `chunk_text` (add_manual_knowledge.py): defaults `min = 250`, `max = 3250`. -/
def chunk_text (sentences : List Str) (text : Str) : List Str :=
  chunkCore 3250 250 sentences text

/-- the chunking part of `ChunkingPipeline.process_item` (pipelines.py):
drops items whose stripped text is shorter than 10 characters, then runs
the same algorithm with `max_chunk_size = 3250`, `min_chunk_size = 250`;
`none` models a raised `DropItem`. -/
def chunkingPipelineChunks (sentences : List Str) (text : Str) : Option (List Str) :=
  if text = [] ∨ (pyStrip text).length < 10 then none
  else if chunkCore 3250 250 sentences text = [] then none
  else some (chunkCore 3250 250 sentences text)

lemma chunkLoop_min (maxc minc : Nat) :
    ∀ (sentences : List Str) (current : Str),
      ∀ c ∈ chunkLoop maxc minc sentences current, minc ≤ c.length := by
  intro sentences
  induction sentences with
  | nil =>
    intro current c hc
    unfold chunkLoop at hc
    split at hc
    · next h =>
      rw [List.mem_singleton] at hc
      exact hc ▸ h.2
    · simp at hc
  | cons s rest ih =>
    intro current c hc
    unfold chunkLoop at hc
    split at hc
    · exact ih current c hc
    · split at hc
      · split at hc
        · next hmin =>
          rcases List.mem_cons.mp hc with hc | hc
          · exact hc ▸ hmin
          · exact ih _ c hc
        · exact ih _ c hc
      · exact ih _ c hc

lemma chunkCore_min (maxc minc : Nat) (sentences : List Str) (text : Str) :
    ∀ c ∈ chunkCore maxc minc sentences text, minc ≤ c.length := by
  intro c hc
  unfold chunkCore at hc
  rw [List.mem_filter] at hc
  rcases hc with ⟨hc, -⟩
  split at hc
  · next h =>
    rw [List.mem_singleton] at hc
    exact hc ▸ h.2
  · exact chunkLoop_min maxc minc sentences [] c hc

/-- C6 (amended): every chunk emitted by the chunking algorithm — in both
the crawl pipeline and the manual-knowledge ingestion path — has length at
least 250 characters.  (The 3,250 upper bound of the original claim does
not hold in general; see the counterexample.) -/
theorem chunk_length_lower_bound :
    (∀ (sentences : List Str) (text : Str),
      ∀ c ∈ chunk_text sentences text, 250 ≤ c.length)
    ∧ (∀ (sentences : List Str) (text : Str) (res : List Str),
        chunkingPipelineChunks sentences text = some res →
        ∀ c ∈ res, 250 ≤ c.length) := by
  constructor
  · intro sentences text c hc
    exact chunkCore_min 3250 250 sentences text c hc
  · intro sentences text res hres c hc
    unfold chunkingPipelineChunks at hres
    split at hres
    · exact absurd hres (by simp)
    · split at hres
      · exact absurd hres (by simp)
      · cases hres
        exact chunkCore_min 3250 250 sentences text c hc

/-- For a single already-stripped sentence both the size cap and the
overlap logic are bypassed (the cap only fires when a *further* sentence is
appended to a nonempty running chunk) and the tail append emits the
sentence whole whenever it reaches `min_chunk_size` — with no upper bound. -/
lemma chunk_text_single (t : Str) (hstrip : pyStrip t = t) (ht : t ≠ [])
    (hmin : 250 ≤ t.length) (hw : 3 ≤ (pySplitWs t).length) :
    chunk_text [t] t = [t] := by
  have hpot : chunkPotential [] t = t := by simp [chunkPotential]
  have hloop : chunkLoop 3250 250 [t] [] = [t] := by
    unfold chunkLoop
    rw [hstrip]
    rw [if_neg ht, if_neg (by simp), hpot]
    unfold chunkLoop
    rw [hstrip, if_pos ⟨ht, by omega⟩]
  unfold chunk_text chunkCore
  rw [hloop, if_neg (by simp [ht]), List.filter_eq_self]
  intro c hc
  rw [List.mem_singleton] at hc
  subst hc
  simpa using hw

lemma chunkingPipeline_single (t : Str) (hstrip : pyStrip t = t) (ht : t ≠ [])
    (hmin : 250 ≤ t.length) (hw : 3 ≤ (pySplitWs t).length) :
    chunkingPipelineChunks [t] t = some [t] := by
  have h10 : ¬ (t = [] ∨ (pyStrip t).length < 10) := by
    rw [hstrip]; push_neg; exact ⟨ht, by omega⟩
  have hcore : chunkCore 3250 250 [t] t = [t] := chunk_text_single t hstrip ht hmin hw
  unfold chunkingPipelineChunks
  rw [if_neg h10, hcore, if_neg (by simp [ht])]

/-- a stripped `n + 5`-character sentence with exactly three words
(`a cc…c b d` shape with the long run attached to the first word). -/
def wordSentence (n : Nat) : Str :=
  'a' :: (List.replicate n 'c' ++ [' ', 'b', ' ', 'd'])

lemma wordSentence_length (n : Nat) : (wordSentence n).length = n + 5 := by
  show (List.replicate n 'c' ++ [' ', 'b', ' ', 'd']).length + 1 = n + 5
  rw [List.length_append, List.length_replicate]
  rfl

lemma wordSentence_ne_nil (n : Nat) : wordSentence n ≠ [] :=
  List.cons_ne_nil _ _

lemma wordSentence_strip (n : Nat) : pyStrip (wordSentence n) = wordSentence n := by
  have hrev : (wordSentence n).reverse
      = 'd' :: (' ' :: 'b' :: ' ' :: (List.replicate n 'c' ++ ['a'])) := by
    rw [wordSentence, List.reverse_cons, List.reverse_append, List.reverse_replicate]
    rw [show ([' ', 'b', ' ', 'd'] : Str).reverse = ['d', ' ', 'b', ' '] from rfl]
    rw [List.append_assoc]
    rfl
  unfold pyStrip
  rw [show (wordSentence n).dropWhile pyIsSpace = wordSentence n from by
    rw [wordSentence, List.dropWhile_cons_of_neg (by decide)]]
  rw [hrev, List.dropWhile_cons_of_neg (by decide), ← hrev, List.reverse_reverse]

lemma pySplitWs_go_cons (c : Char) (hc : pyIsSpace c = false) (rest acc : Str) :
    pySplitWs.go (c :: rest) acc = pySplitWs.go rest (c :: acc) := by
  simp only [pySplitWs.go, hc]
  simp

lemma pySplitWs_go_run (n : Nat) (rest : Str) :
    ∀ acc, pySplitWs.go (List.replicate n 'c' ++ rest) acc
      = pySplitWs.go rest (List.replicate n 'c' ++ acc) := by
  induction n with
  | zero => intro acc; simp
  | succ k ih =>
    intro acc
    rw [List.replicate_succ, List.cons_append, pySplitWs_go_cons 'c' (by decide)]
    rw [ih ('c' :: acc)]
    congr 1
    rw [show ('c' :: acc : Str) = ['c'] ++ acc from rfl, ← List.append_assoc]
    rw [show (List.replicate k 'c' ++ ['c'] : Str) = 'c' :: List.replicate k 'c' from by
      rw [← List.replicate_succ', List.replicate_succ]]

lemma pySplitWs_go_tail (acc : Str) (hacc : acc ≠ []) :
    (pySplitWs.go [' ', 'b', ' ', 'd'] acc).length = 3 := by
  rw [show pySplitWs.go [' ', 'b', ' ', 'd'] acc
        = if acc = [] then pySplitWs.go ['b', ' ', 'd'] []
          else acc.reverse :: pySplitWs.go ['b', ' ', 'd'] [] from rfl]
  rw [if_neg hacc]
  rw [show pySplitWs.go ['b', ' ', 'd'] [] = [['b'], ['d']] from rfl]
  rfl

lemma wordSentence_words (n : Nat) : (pySplitWs (wordSentence n)).length = 3 := by
  show (pySplitWs.go (wordSentence n) []).length = 3
  rw [wordSentence, pySplitWs_go_cons 'a' (by decide), pySplitWs_go_run]
  refine pySplitWs_go_tail _ (fun h => ?_)
  have := congrArg List.length h
  rw [List.length_append, List.length_replicate] at this
  simp at this

/-- C6 (counterexample): a single 3,252-character sentence (as
`nltk.sent_tokenize` returns for text with no sentence-ending punctuation)
is emitted as one chunk of length 3,252 > 3,250 by both chunking paths:
the `> max_chunk_size` check only fires when a *further* sentence is
appended to a nonempty running chunk, and neither the final tail append nor
the whole-text fallback has an upper-bound check. -/
theorem chunk_length_upper_bound_counterexample :
    chunk_text [wordSentence 3247] (wordSentence 3247) = [wordSentence 3247]
    ∧ chunkingPipelineChunks [wordSentence 3247] (wordSentence 3247)
        = some [wordSentence 3247]
    ∧ 3250 < (wordSentence 3247).length := by
  have hmin : 250 ≤ (wordSentence 3247).length := by rw [wordSentence_length]; omega
  have hw : 3 ≤ (pySplitWs (wordSentence 3247)).length := by rw [wordSentence_words]
  exact ⟨chunk_text_single _ (wordSentence_strip 3247) (wordSentence_ne_nil 3247) hmin hw,
         chunkingPipeline_single _ (wordSentence_strip 3247) (wordSentence_ne_nil 3247) hmin hw,
         by rw [wordSentence_length]; omega⟩

/-- witness for `chunk_length_lower_bound`: a concrete 250-character
three-word text is chunked to itself, and the theorem applies to it. -/
theorem chunk_length_lower_bound_witness :
    chunk_text [wordSentence 245] (wordSentence 245) = [wordSentence 245]
    ∧ 250 ≤ (wordSentence 245).length := by
  have hmin : 250 ≤ (wordSentence 245).length := by rw [wordSentence_length]
  have hw : 3 ≤ (pySplitWs (wordSentence 245)).length := by rw [wordSentence_words]
  have hchunks :=
    chunk_text_single _ (wordSentence_strip 245) (wordSentence_ne_nil 245) hmin hw
  refine ⟨hchunks, ?_⟩
  exact chunk_length_lower_bound.1 [wordSentence 245] (wordSentence 245) (wordSentence 245)
    (by rw [hchunks]; exact List.mem_singleton.mpr rfl)

/-! ## 4.D.3 Hybrid reranking (`smart_rerank_candidates`, app_20.py 1057-1085)

Cross-encoder scores are a black-box function `ce`; float scores are
modelled as exact rationals (the comparisons the claims depend on are far
from float rounding error). -/

/-- `keywords = [word.lower() for word in question.split() if len(word) > 3]`
(app_20.py 1063) — a *list*, retaining duplicate words. -/
def rerankKeywords (question : Str) : List Str :=
  ((pySplitWs question).filter (fun w => 3 < w.length)).map pyLower

/-- `(doc, semantic_score + 0.3 · keyword_matches)` for every candidate
(app_20.py 1066-1078): `keyword_matches` counts the keyword list entries
(with multiplicity) that occur as substrings of the lowercased document. -/
def rerankScores (ce : Str → Str → ℚ) (question : Str) (docs : List Str) :
    List (Str × ℚ) :=
  docs.map (fun doc =>
    (doc, ce question doc
      + 3 / 10 * ((rerankKeywords question).filter
          (fun kw => pyContains (pyLower doc) kw)).length))

/-- one step of a stable descending insertion: the new element goes after
every already-placed element with an equal or higher score. -/
def insDesc (x : Str × ℚ) : List (Str × ℚ) → List (Str × ℚ)
  | [] => [x]
  | y :: ys => if y.2 < x.2 then x :: y :: ys else y :: insDesc x ys

/-- `doc_scores.sort(key=lambda x: x[1], reverse=True)` — Python's sort is
stable, so equal scores keep input order. -/
def sortDesc (l : List (Str × ℚ)) : List (Str × ℚ) :=
  l.foldl (fun acc x => insDesc x acc) []

/-- `k = topn or self.max_passages` (app_20.py 1084): Python's `or` falls
back to `max_passages = 10` both when `topn` is `None` and when it is 0. -/
def rerankK (topn : Option Nat) : Nat :=
  match topn with
  | none => 10
  | some t => if t = 0 then 10 else t

/-- `SemanticIntelligentRAG.smart_rerank_candidates` (app_20.py 1057-1085). -/
def smart_rerank_candidates (ce : Str → Str → ℚ) (question : Str)
    (docs : List Str) (topn : Option Nat) : List Str :=
  if docs = [] then []
  else ((sortDesc (rerankScores ce question docs)).map Prod.fst).take (rerankK topn)

/-- The reranker of C5's words: 0.3 times the cardinality of the *set* of
question keywords, and `topn` defaulted only when not given. -/
def rerankClaimSpec (ce : Str → Str → ℚ) (question : Str)
    (docs : List Str) (topn : Option Nat) : List Str :=
  ((sortDesc (docs.map (fun doc =>
      (doc, ce question doc
        + 3 / 10 * ((rerankKeywords question).dedup.filter
            (fun kw => pyContains (pyLower doc) kw)).length)))).map Prod.fst).take
    (topn.getD 10)

lemma insDesc_perm (x : Str × ℚ) (l : List (Str × ℚ)) :
    (insDesc x l).Perm (x :: l) := by
  induction l with
  | nil => rfl
  | cons y ys ih =>
    unfold insDesc
    split
    · rfl
    · exact ((ih.cons y).trans (List.Perm.swap x y ys)).symm.symm

lemma sortDesc_perm_aux :
    ∀ (l acc : List (Str × ℚ)), (l.foldl (fun acc x => insDesc x acc) acc).Perm (acc ++ l) := by
  intro l
  induction l with
  | nil => intro acc; simp
  | cons x t ih =>
    intro acc
    have h1 := ih (insDesc x acc)
    have h2 : (insDesc x acc ++ t).Perm (acc ++ x :: t) := by
      have := (insDesc_perm x acc).append_right t
      exact this.trans (List.perm_middle.symm).symm.symm
    simpa using h1.trans h2
  
lemma sortDesc_perm (l : List (Str × ℚ)) : (sortDesc l).Perm l := by
  simpa using sortDesc_perm_aux l []

lemma insDesc_sorted (x : Str × ℚ) (l : List (Str × ℚ))
    (h : l.Pairwise (fun a b => b.2 ≤ a.2)) :
    (insDesc x l).Pairwise (fun a b => b.2 ≤ a.2) := by
  induction l with
  | nil => simp [insDesc]
  | cons y ys ih =>
    rcases List.pairwise_cons.mp h with ⟨hy, hys⟩
    unfold insDesc
    split
    · next hlt =>
      refine List.pairwise_cons.mpr ⟨?_, h⟩
      intro z hz
      rcases List.mem_cons.mp hz with hz | hz
      · exact hz ▸ le_of_lt hlt
      · exact le_trans (hy z hz) (le_of_lt hlt)
    · next hge =>
      refine List.pairwise_cons.mpr ⟨?_, ih hys⟩
      intro z hz
      have := (insDesc_perm x ys).mem_iff.mp hz
      rcases List.mem_cons.mp this with hz' | hz'
      · exact hz' ▸ le_of_not_lt hge
      · exact hy z hz'

lemma sortDesc_sorted (l : List (Str × ℚ)) :
    (sortDesc l).Pairwise (fun a b => b.2 ≤ a.2) := by
  have : ∀ (t acc : List (Str × ℚ)), acc.Pairwise (fun a b => b.2 ≤ a.2) →
      (t.foldl (fun acc x => insDesc x acc) acc).Pairwise (fun a b => b.2 ≤ a.2) := by
    intro t
    induction t with
    | nil => intro acc h; simpa using h
    | cons x ts ih => intro acc h; simpa using ih (insDesc x acc) (insDesc_sorted x acc h)
  simpa [sortDesc] using this l [] (by simp)

lemma insDesc_filter_score (x : Str × ℚ) (l : List (Str × ℚ)) (v : ℚ)
    (h : l.Pairwise (fun a b => b.2 ≤ a.2)) :
    (insDesc x l).filter (fun y => y.2 = v)
      = if x.2 = v then l.filter (fun y => y.2 = v) ++ [x]
        else l.filter (fun y => y.2 = v) := by
  induction l with
  | nil => by_cases hx : x.2 = v <;> simp [insDesc, hx]
  | cons y ys ih =>
    rcases List.pairwise_cons.mp h with ⟨hy, hys⟩
    unfold insDesc
    split
    · next hlt =>
      by_cases hx : x.2 = v
      · have hyv : ¬ y.2 = v := by
          intro hyv; rw [hyv, ← hx] at hlt; exact lt_irrefl _ hlt
        have hzs : (y :: ys).filter (fun z => z.2 = v) = [] := by
          rw [List.filter_eq_nil_iff]
          intro z hz
          rcases List.mem_cons.mp hz with hz | hz
          · simpa [hz] using hyv
          · have : z.2 ≤ y.2 := hy z hz
            simp only [decide_eq_true_eq]
            intro hzv
            rw [hzv, ← hx] at this
            exact absurd (lt_of_le_of_lt this hlt) (lt_irrefl _)
        simp [hx, hzs, List.filter_cons, hyv]
      · simp [List.filter_cons, hx]
    · next hge =>
      by_cases hyv : y.2 = v
      · simp [List.filter_cons, hyv, ih hys]
        split <;> simp
      · simp [List.filter_cons, hyv, ih hys]

/-- stability of the model sort: for every score value, the elements
holding that score appear in the output exactly in input order. -/
lemma sortDesc_stable (l : List (Str × ℚ)) (v : ℚ) :
    (sortDesc l).filter (fun y => y.2 = v) = l.filter (fun y => y.2 = v) := by
  have main : ∀ (t acc : List (Str × ℚ)), acc.Pairwise (fun a b => b.2 ≤ a.2) →
      (t.foldl (fun acc x => insDesc x acc) acc).filter (fun y => y.2 = v)
        = acc.filter (fun y => y.2 = v) ++ t.filter (fun y => y.2 = v) := by
    intro t
    induction t with
    | nil => intro acc h; simp
    | cons x ts ih =>
      intro acc h
      have step := insDesc_filter_score x acc v h
      have hrest := ih (insDesc x acc) (insDesc_sorted x acc h)
      simp only [List.foldl_cons] at *
      rw [hrest, step, List.filter_cons]
      by_cases hx : x.2 = v <;> simp [hx]
  simpa [sortDesc] using main l [] (by simp)

/-- C5 (amended): the hybrid reranker scores each document as the
cross-encoder score plus 0.3 times the number of question keyword *tokens*
(words of length > 3, counted with multiplicity, not as a set) occurring in
the lowercased document; it returns the first `k` documents of a stable
descending ordering of those scores (a permutation of the scored
candidates, sorted by descending score, with equal scores kept in input
order), where `k` is `topn` unless `topn` is not given *or is 0*, in which
case `k = max_passages = 10`. -/
theorem smart_rerank_characterisation (ce : Str → Str → ℚ) (question : Str)
    (docs : List Str) (topn : Option Nat) :
    smart_rerank_candidates ce question docs topn
      = ((sortDesc (rerankScores ce question docs)).map Prod.fst).take (rerankK topn)
    ∧ (sortDesc (rerankScores ce question docs)).Perm (rerankScores ce question docs)
    ∧ (sortDesc (rerankScores ce question docs)).Pairwise (fun a b => b.2 ≤ a.2)
    ∧ (∀ v : ℚ, (sortDesc (rerankScores ce question docs)).filter (fun y => y.2 = v)
        = (rerankScores ce question docs).filter (fun y => y.2 = v)) := by
  refine ⟨?_, sortDesc_perm _, sortDesc_sorted _, fun v => sortDesc_stable _ v⟩
  unfold smart_rerank_candidates
  split
  · next hd => simp [hd, rerankScores, sortDesc]
  · rfl

lemma sortDesc_pair_lt (a b : Str × ℚ) (h : a.2 < b.2) : sortDesc [a, b] = [b, a] := by
  simp [sortDesc, insDesc, h]

lemma sortDesc_pair_ge (a b : Str × ℚ) (h : ¬ a.2 < b.2) : sortDesc [a, b] = [a, b] := by
  simp [sortDesc, insDesc, h]

/-- C5 (counterexample): with a constant-zero cross-encoder, question
`"spam spam aaaa"` and candidates `["aaaa", "spam"]`, the code counts the
duplicated keyword `"spam"` twice (score 0.6 vs 0.3) and returns
`["spam", "aaaa"]`, while the claim's set-of-keywords scoring ties both
documents at 0.3 and by input order returns `["aaaa", "spam"]`; moreover
with `topn = 0` the code returns the top 10 (both documents), not 0. -/
theorem smart_rerank_counterexample :
    smart_rerank_candidates (fun _ _ => 0) (pyStr "spam spam aaaa")
        [pyStr "aaaa", pyStr "spam"] none
      = [pyStr "spam", pyStr "aaaa"]
    ∧ rerankClaimSpec (fun _ _ => 0) (pyStr "spam spam aaaa")
        [pyStr "aaaa", pyStr "spam"] none
      = [pyStr "aaaa", pyStr "spam"]
    ∧ smart_rerank_candidates (fun _ _ => 0) (pyStr "spam spam aaaa")
        [pyStr "aaaa", pyStr "spam"] (some 0)
      = [pyStr "spam", pyStr "aaaa"]
    ∧ rerankClaimSpec (fun _ _ => 0) (pyStr "spam spam aaaa")
        [pyStr "aaaa", pyStr "spam"] (some 0) = []
    ∧ pyStr "spam" ≠ pyStr "aaaa" := by
  have hc1 : ((rerankKeywords (pyStr "spam spam aaaa")).filter
      (fun kw => pyContains (pyLower (pyStr "aaaa")) kw)).length = 1 := by decide
  have hc2 : ((rerankKeywords (pyStr "spam spam aaaa")).filter
      (fun kw => pyContains (pyLower (pyStr "spam")) kw)).length = 2 := by decide
  have hscores : rerankScores (fun _ _ => 0) (pyStr "spam spam aaaa")
      [pyStr "aaaa", pyStr "spam"]
      = [(pyStr "aaaa", 0 + 3 / 10 * ((1 : ℕ) : ℚ)), (pyStr "spam", 0 + 3 / 10 * ((2 : ℕ) : ℚ))] := by
    simp only [rerankScores, List.map, hc1, hc2]
  have hsort : sortDesc (rerankScores (fun _ _ => 0) (pyStr "spam spam aaaa")
      [pyStr "aaaa", pyStr "spam"])
      = [(pyStr "spam", 0 + 3 / 10 * ((2 : ℕ) : ℚ)), (pyStr "aaaa", 0 + 3 / 10 * ((1 : ℕ) : ℚ))] := by
    rw [hscores]
    exact sortDesc_pair_lt _ _ (by norm_num)
  have hd1 : ((rerankKeywords (pyStr "spam spam aaaa")).dedup.filter
      (fun kw => pyContains (pyLower (pyStr "aaaa")) kw)).length = 1 := by decide
  have hd2 : ((rerankKeywords (pyStr "spam spam aaaa")).dedup.filter
      (fun kw => pyContains (pyLower (pyStr "spam")) kw)).length = 1 := by decide
  have hsortSpec : sortDesc ([pyStr "aaaa", pyStr "spam"].map (fun doc =>
      (doc, (fun (_ _ : Str) => (0 : ℚ)) (pyStr "spam spam aaaa") doc
        + 3 / 10 * ((rerankKeywords (pyStr "spam spam aaaa")).dedup.filter
            (fun kw => pyContains (pyLower doc) kw)).length)))
      = [(pyStr "aaaa", 0 + 3 / 10 * ((1 : ℕ) : ℚ)), (pyStr "spam", 0 + 3 / 10 * ((1 : ℕ) : ℚ))] := by
    simp only [List.map, hd1, hd2]
    exact sortDesc_pair_ge _ _ (by norm_num)
  refine ⟨?_, ?_, ?_, ?_, by decide⟩
  · unfold smart_rerank_candidates
    rw [if_neg (by simp), hsort]
    rfl
  · unfold rerankClaimSpec
    rw [hsortSpec]
    rfl
  · unfold smart_rerank_candidates
    rw [if_neg (by simp), hsort]
    rfl
  · unfold rerankClaimSpec
    rw [hsortSpec]
    rfl

/-! ## 4.D.4 Answer post-processing (`synthesize_comprehensive_answer`,
app_20.py 1091-1168, and `is_location_query`, app_20.py 1302-1327)

The LLM call is a black box: its outcome (exception, missing text, or a
text) is a parameter.  The URL scrub `re.sub(r'https?://\S+', '', answer)`
is modelled by a direct scan with the same semantics: at each position the
pattern matches iff an `http://` or `https://` prefix (the `https` branch
preferred) is followed by at least one non-whitespace character, and the
greedy `\S+` extends through the maximal non-whitespace run. -/

def locationTriggers : List Str :=
  [pyStr "where is this", pyStr "which page", pyStr "source", pyStr "link",
   pyStr "url", pyStr "where did you get this", pyStr "about page",
   pyStr "where can i find", pyStr "what page", pyStr "page located"]

/-- `SemanticIntelligentRAG.is_location_query` (app_20.py 1302-1327). -/
def is_location_query (question : Str) : Bool :=
  if question = [] then false
  else
    (locationTriggers.any (fun t => pyContains (pyLower question) t))
    || ([pyStr "source", pyStr "link", pyStr "url"].any
          (fun w => (pySplitWs (pyLower question)).contains w))

/-- length of the maximal leading run of non-whitespace characters
(the extent of a greedy `\S+`). -/
def nonspaceRun (l : Str) : Nat := (l.takeWhile (fun c => ! pyIsSpace c)).length

/-- the match length of `https?://\S+` at the start of `s`, if any. -/
def urlMatchLen (s : Str) : Option Nat :=
  if pyStartsWith (pyStr "https://") s ∧ 0 < nonspaceRun (s.drop 8) then
    some (8 + nonspaceRun (s.drop 8))
  else if pyStartsWith (pyStr "http://") s ∧ 0 < nonspaceRun (s.drop 7) then
    some (7 + nonspaceRun (s.drop 7))
  else none

/-- `re.sub(r'https?://\S+', '', answer)` : left-to-right scan removing
every match; each match consumes at least 8 characters, so
`fuel = length + 1` always suffices. -/
def removeUrlsGo : Nat → Str → Str
  | 0, s => s
  | _ + 1, [] => []
  | fuel + 1, c :: rest =>
    match urlMatchLen (c :: rest) with
    | some n => removeUrlsGo fuel ((c :: rest).drop n)
    | none => c :: removeUrlsGo fuel rest

def removeUrls (s : Str) : Str := removeUrlsGo (s.length + 1) s

/-- `s` contains an occurrence of `http://` or `https://` immediately
followed by a non-whitespace character (i.e. a `https?://\S+` match
somewhere). -/
def hasBadUrl : Str → Bool
  | [] => false
  | c :: rest => (urlMatchLen (c :: rest)).isSome || hasBadUrl rest

/-- `ln.lower().startswith(('source:', 'sources:'))`. -/
def srcAt (s : Str) : Bool :=
  pyStartsWith (pyStr "source:") (pyLower s)
    || pyStartsWith (pyStr "sources:") (pyLower s)

/-- the guard of the line filter (app_20.py 1153):
`not ln.strip().lower().startswith(('source:', 'sources:'))`. -/
def keepLine (ln : Str) : Bool := ! srcAt (pyStrip ln)

def isLineTerm (c : Char) : Bool := c = '\n' || c = '\x0d'

/-- `str.splitlines()` for `\n`, `\r` and `\r\n` terminators. -/
def pySplitLinesGo : Str → Str → List Str
  | [], acc => if acc = [] then [] else [acc.reverse]
  | '\x0d' :: '\n' :: rest, acc => acc.reverse :: pySplitLinesGo rest []
  | '\x0d' :: rest, acc => acc.reverse :: pySplitLinesGo rest []
  | '\n' :: rest, acc => acc.reverse :: pySplitLinesGo rest []
  | c :: rest, acc => pySplitLinesGo rest (c :: acc)

def pySplitLines (s : Str) : List Str := pySplitLinesGo s []

/-- some position directly after a line terminator starts (case-insensitively)
with `source:` or `sources:`. -/
def srcAfterTerm : Str → Bool
  | [] => false
  | c :: rest => (isLineTerm c && srcAt rest) || srcAfterTerm rest

/-- some line of `s` begins (case-insensitively) with `source:` or `sources:`. -/
def hasSrcLineStart (s : Str) : Bool := srcAt s || srcAfterTerm s

/-- the post-processing of app_20.py 1150-1154: scrub URLs, drop source
lines, strip. -/
def cleanedAnswer (raw : Str) : Str :=
  pyStrip (pyJoinChar '\n' ((pySplitLines (removeUrls raw)).filter keepLine))

/-- app_20.py 1146-1159: clean only for non-location questions, and fall
back to the unmodified answer when cleaning removed everything. -/
def postprocessAnswer (q raw : Str) : Str :=
  if is_location_query q then raw
  else if cleanedAnswer raw = [] then raw else cleanedAnswer raw

def msgNoInfo : Str :=
  pyStr "I couldn" ++ apos :: pyStr "t find relevant information to answer your question."

def msgNoProper : Str :=
  pyStr "I found some information but couldn" ++ apos :: pyStr "t generate a proper response."

def msgSynthError : Str :=
  pyStr "I found relevant information but encountered an error while generating the response."

/-- `answer = response.text.strip() if response and response.text else "I found some…"`
(app_20.py 1141); `none` models a falsy `response`/`response.text`. -/
def rawAnswerOf : Option Str → Str
  | some txt => if txt = [] then msgNoProper else pyStrip txt
  | none => msgNoProper

/-- `SemanticIntelligentRAG.synthesize_comprehensive_answer`
(app_20.py 1091-1168): early return on empty docs, canned answer on an LLM
exception, otherwise the post-processed LLM answer.  (The prompt passed to
the LLM does not influence the post-processing and is absorbed into the
black-box outcome `llm`.) -/
def synthesize_comprehensive_answer (q : Str) (docs : List Str)
    (llm : Except Str (Option Str)) : Str :=
  if docs = [] then msgNoInfo
  else
    match llm with
    | .error _ => msgSynthError
    | .ok t => postprocessAnswer q (rawAnswerOf t)

/-! lemmas: prefixes across appends -/

lemma prefix_left_of_le {w a b : Str} (h : w <+: a ++ b) (hle : w.length ≤ a.length) :
    w <+: a := by
  rcases h with ⟨t, ht⟩
  have h1 : (a ++ b).take w.length = w := by
    rw [← ht, List.take_left]
  have h2 : (a ++ b).take w.length = a.take w.length :=
    List.take_append_of_le_length hle
  have h3 : a.take w.length = w := by rw [← h2, h1]
  exact h3 ▸ List.take_prefix _ _

lemma prefix_spill {w a b : Str} (h : w <+: a ++ b) (hlt : a.length < w.length) :
    ∃ d, b.head? = some d ∧ d ∈ w := by
  rcases h with ⟨t, ht⟩
  have hget : (a ++ b)[a.length]? = w[a.length]? := by
    rw [← ht]
    exact List.getElem?_append_left hlt
  rw [List.getElem?_append_right (le_refl _), Nat.sub_self] at hget
  cases hb : b[0]? with
  | none =>
    rw [hb, eq_comm, List.getElem?_eq_none_iff] at hget
    omega
  | some d =>
    refine ⟨d, ?_, ?_⟩
    · rw [List.head?_eq_getElem?, hb]
    · rw [hb] at hget
      rw [eq_comm, List.getElem?_eq_some] at hget
      obtain ⟨h2, hd⟩ := hget
      exact hd ▸ List.getElem_mem h2

/-! lemmas: `urlMatchLen` -/

lemma takeWhile_head {p : Char → Bool} {l : Str}
    (h : 0 < (l.takeWhile p).length) : ∃ d, l.head? = some d ∧ p d = true := by
  cases l with
  | nil => simp at h
  | cons a t =>
    by_cases hp : p a
    · exact ⟨a, rfl, hp⟩
    · rw [List.takeWhile_cons_of_neg hp] at h
      simp at h

lemma dropWhile_head {p : Char → Bool} {l : Str} {c : Char}
    (h : (l.dropWhile p).head? = some c) : p c = false := by
  induction l with
  | nil => simp at h
  | cons a t ih =>
    by_cases hp : p a
    · rw [List.dropWhile_cons_of_pos hp] at h
      exact ih h
    · rw [List.dropWhile_cons_of_neg hp] at h
      simp at h
      rw [← h]
      exact Bool.not_eq_true _ ▸ (by simpa using hp)

lemma drop_nonspaceRun (l : Str) :
    l.drop (nonspaceRun l) = l.dropWhile (fun c => ! pyIsSpace c) := by
  unfold nonspaceRun
  conv => rw [show l.drop (l.takeWhile (fun c => ! pyIsSpace c)).length
    = (l.takeWhile (fun c => ! pyIsSpace c) ++ l.dropWhile (fun c => ! pyIsSpace c)).drop
        (l.takeWhile (fun c => ! pyIsSpace c)).length from by
    rw [List.takeWhile_append_dropWhile]]
  rw [List.drop_left]

lemma urlMatchLen_bounds {s : Str} {n : Nat} (h : urlMatchLen s = some n) :
    7 ≤ n ∧ n ≤ s.length := by
  unfold urlMatchLen at h
  split at h
  · next hc =>
    cases h
    have h8 : 8 ≤ s.length := by
      have := hc.1
      rw [pyStartsWith, List.isPrefixOf_iff_prefix] at this
      simpa using this.length_le
    have : nonspaceRun (s.drop 8) ≤ s.length - 8 := by
      have := (List.takeWhile_prefix (l := s.drop 8) (fun c => ! pyIsSpace c)).length_le
      simpa [nonspaceRun] using this
    omega
  · split at h
    · next hc =>
      cases h
      have h7 : 7 ≤ s.length := by
        have := hc.1
        rw [pyStartsWith, List.isPrefixOf_iff_prefix] at this
        simpa using this.length_le
      have : nonspaceRun (s.drop 7) ≤ s.length - 7 := by
        have := (List.takeWhile_prefix (l := s.drop 7) (fun c => ! pyIsSpace c)).length_le
        simpa [nonspaceRun] using this
      omega
    · exact absurd h (by simp)

lemma urlMatchLen_after {s : Str} {n : Nat} {c : Char} (h : urlMatchLen s = some n)
    (hc : (s.drop n).head? = some c) : pyIsSpace c = true := by
  unfold urlMatchLen at h
  split at h
  · cases h
    have hdd : s.drop (8 + nonspaceRun (s.drop 8))
        = (s.drop 8).drop (nonspaceRun (s.drop 8)) := by
      rw [List.drop_drop, Nat.add_comm]
    rw [hdd, drop_nonspaceRun] at hc
    have := dropWhile_head hc
    simpa using this
  · split at h
    · cases h
      have hdd : s.drop (7 + nonspaceRun (s.drop 7))
          = (s.drop 7).drop (nonspaceRun (s.drop 7)) := by
        rw [List.drop_drop, Nat.add_comm]
      rw [hdd, drop_nonspaceRun] at hc
      have := dropWhile_head hc
      simpa using this
    · exact absurd h (by simp)

/-- a successful match yields a scheme-plus-nonspace prefix. -/
lemma urlMatchLen_scheme {s : Str} {n : Nat} (h : urlMatchLen s = some n) :
    ∃ w d, (w = pyStr "https://" ∨ w = pyStr "http://")
      ∧ (w ++ [d]) <+: s ∧ pyIsSpace d = false := by
  have build : ∀ (w : Str), w <+: s → 0 < nonspaceRun (s.drop w.length) →
      ∃ d, (w ++ [d]) <+: s ∧ pyIsSpace d = false := by
    intro w hw hrun
    obtain ⟨d, hd, hpd⟩ := takeWhile_head (l := s.drop w.length) hrun
    rcases hw with ⟨t, ht⟩
    have hts : s.drop w.length = t := by rw [← ht, List.drop_left]
    rw [hts] at hd
    cases t with
    | nil => simp at hd
    | cons d0 t' =>
      simp only [List.head?] at hd
      cases hd
      exact ⟨d, ⟨t', by rw [← ht]; simp⟩, by simpa using hpd⟩
  unfold urlMatchLen at h
  split at h
  · next hc =>
    obtain ⟨d, h1, h2⟩ := build (pyStr "https://")
      (by have := hc.1; rwa [pyStartsWith, List.isPrefixOf_iff_prefix] at this)
      (by simpa using hc.2)
    exact ⟨pyStr "https://", d, Or.inl rfl, h1, h2⟩
  · split at h
    · next hc =>
      obtain ⟨d, h1, h2⟩ := build (pyStr "http://")
        (by have := hc.1; rwa [pyStartsWith, List.isPrefixOf_iff_prefix] at this)
        (by simpa using hc.2)
      exact ⟨pyStr "http://", d, Or.inr rfl, h1, h2⟩
    · exact absurd h (by simp)

/-- conversely, a scheme-plus-nonspace prefix forces a match. -/
lemma urlMatchLen_isSome_of_scheme {s : Str} {w : Str} {d : Char}
    (hw : w = pyStr "https://" ∨ w = pyStr "http://")
    (hp : (w ++ [d]) <+: s) (hd : pyIsSpace d = false) :
    (urlMatchLen s).isSome = true := by
  have run_pos : ∀ (u : Str), u <+: s → (s.drop u.length).head? = some d →
      0 < nonspaceRun (s.drop u.length) := by
    intro u _ hh
    unfold nonspaceRun
    cases hdrop : s.drop u.length with
    | nil => rw [hdrop] at hh; simp at hh
    | cons x t =>
      rw [hdrop] at hh
      simp only [List.head?] at hh
      cases hh
      rw [List.takeWhile_cons_of_pos (by simpa using hd)]
      simp
  have head_drop : (s.drop w.length).head? = some d := by
    rcases hp with ⟨t, ht⟩
    have : s.drop w.length = d :: t := by
      rw [← ht, List.append_assoc]
      rw [List.drop_left]
      rfl
    rw [this]
    rfl
  rcases hw with rfl | rfl
  · have hpre : pyStartsWith (pyStr "https://") s = true := by
      rw [pyStartsWith, List.isPrefixOf_iff_prefix]
      exact ((List.prefix_append _ [d]).trans hp)
    unfold urlMatchLen
    rw [if_pos ⟨hpre, by simpa using run_pos _ ((List.prefix_append _ [d]).trans hp) head_drop⟩]
    rfl
  · by_cases hs : pyStartsWith (pyStr "https://") s ∧ 0 < nonspaceRun (s.drop 8)
    · unfold urlMatchLen
      rw [if_pos hs]
      rfl
    · have hpre : pyStartsWith (pyStr "http://") s = true := by
        rw [pyStartsWith, List.isPrefixOf_iff_prefix]
        exact ((List.prefix_append _ [d]).trans hp)
      unfold urlMatchLen
      rw [if_neg hs, if_pos ⟨hpre, by simpa using run_pos _ ((List.prefix_append _ [d]).trans hp) head_drop⟩]
      rfl

lemma urlMatchLen_append {t b : Str} (h : (urlMatchLen t).isSome = true) :
    (urlMatchLen (t ++ b)).isSome = true := by
  rw [Option.isSome_iff_exists] at h
  obtain ⟨n, hn⟩ := h
  obtain ⟨w, d, hw, hp, hd⟩ := urlMatchLen_scheme hn
  exact urlMatchLen_isSome_of_scheme hw (hp.trans (List.prefix_append t b)) hd

/-! lemmas: `hasBadUrl` over string segments -/

lemma hasBadUrl_append_right {a b : Str} (h : hasBadUrl b = true) :
    hasBadUrl (a ++ b) = true := by
  induction a with
  | nil => simpa using h
  | cons c a' ih =>
    show ((urlMatchLen (c :: (a' ++ b))).isSome || hasBadUrl (a' ++ b)) = true
    rw [ih]
    simp

lemma hasBadUrl_append_left {a b : Str} (h : hasBadUrl a = true) :
    hasBadUrl (a ++ b) = true := by
  induction a with
  | nil => simp [hasBadUrl] at h
  | cons c a' ih =>
    have hstep : hasBadUrl (c :: a') = ((urlMatchLen (c :: a')).isSome || hasBadUrl a') := rfl
    rw [hstep] at h
    rcases Bool.or_eq_true_iff.mp h with hm | ha
    · show ((urlMatchLen ((c :: a') ++ b)).isSome || hasBadUrl (a' ++ b)) = true
      rw [show ((c :: a') ++ b : Str) = c :: (a' ++ b) from rfl] at *
      rw [show (c :: (a' ++ b) : Str) = (c :: a') ++ b from rfl, urlMatchLen_append hm]
      simp
    · show ((urlMatchLen (c :: (a' ++ b))).isSome || hasBadUrl (a' ++ b)) = true
      rw [ih ha]
      simp

/-- every character of the two scheme strings is non-whitespace and not a
line terminator. -/
lemma scheme_chars {w : Str} (hw : w = pyStr "https://" ∨ w = pyStr "http://") :
    ∀ c ∈ w, pyIsSpace c = false ∧ c ≠ '\n' ∧ c ≠ '\x0d' := by
  rcases hw with rfl | rfl <;> decide

lemma urlMatchLen_head_not_h {c : Char} {t : Str} (hc : c ≠ 'h') :
    urlMatchLen (c :: t) = none := by
  have h1 : pyStartsWith (pyStr "https://") (c :: t) = false := by
    simp only [pyStartsWith, pyStr]
    simp only [String.toList]
    simp [List.isPrefixOf]
    intro he
    exact absurd he.symm hc
  have h2 : pyStartsWith (pyStr "http://") (c :: t) = false := by
    simp only [pyStartsWith, pyStr]
    simp only [String.toList]
    simp [List.isPrefixOf]
    intro he
    exact absurd he.symm hc
  unfold urlMatchLen
  rw [if_neg (by simp [h1]), if_neg (by simp [h2])]

/-- combining two clean segments across a whitespace separator stays clean. -/
lemma hasBadUrl_append_sep {sep : Char} (hsep : pyIsSpace sep = true) :
    ∀ {l j : Str}, hasBadUrl l = false → hasBadUrl j = false →
      hasBadUrl (l ++ sep :: j) = false := by
  have hsep_ne : sep ≠ 'h' := by
    intro he
    subst he
    exact absurd hsep (by decide)
  intro l
  induction l with
  | nil =>
    intro j _ hj
    show ((urlMatchLen (sep :: j)).isSome || hasBadUrl j) = false
    rw [urlMatchLen_head_not_h hsep_ne, hj]
    rfl
  | cons c l' ih =>
    intro j hl hj
    have hstep : hasBadUrl (c :: l') = ((urlMatchLen (c :: l')).isSome || hasBadUrl l') := rfl
    rw [hstep, Bool.or_eq_false_iff] at hl
    show ((urlMatchLen (c :: (l' ++ sep :: j))).isSome || hasBadUrl (l' ++ sep :: j)) = false
    rw [ih hl.2 hj]
    suffices hnone : urlMatchLen (c :: (l' ++ sep :: j)) = none by
      rw [hnone]
      rfl
    by_contra hne
    have hsome : (urlMatchLen (c :: (l' ++ sep :: j))).isSome = true := by
      cases hx : urlMatchLen (c :: (l' ++ sep :: j))
      · exact absurd hx hne
      · rfl
    rw [Option.isSome_iff_exists] at hsome
    obtain ⟨n, hn⟩ := hsome
    obtain ⟨w, d, hw, hp, hd⟩ := urlMatchLen_scheme hn
    have hp' : (w ++ [d]) <+: (c :: l') ++ (sep :: j) := by simpa using hp
    by_cases hlen : (w ++ [d]).length ≤ (c :: l').length
    · have := prefix_left_of_le hp' hlen
      have := urlMatchLen_isSome_of_scheme hw this hd
      rw [Option.isSome_iff_exists] at this
      obtain ⟨m, hm⟩ := this
      rw [hm] at hl
      exact absurd hl.1 (by simp)
    · obtain ⟨e, he, hmem⟩ := prefix_spill hp' (by omega)
      have he' : sep = e := by simpa using he
      rcases List.mem_append.mp hmem with hm2 | hm2
      · have hfalse := (scheme_chars hw e hm2).1
        rw [he'] at hsep
        rw [hfalse] at hsep
        exact absurd hsep (by simp)
      · rw [List.mem_singleton] at hm2
        rw [he', hm2] at hsep
        rw [hd] at hsep
        exact absurd hsep (by simp)

lemma hasBadUrl_join {ls : List Str} (h : ∀ l ∈ ls, hasBadUrl l = false) :
    hasBadUrl (pyJoinChar '\n' ls) = false := by
  induction ls with
  | nil => rfl
  | cons l ls' ih =>
    cases ls' with
    | nil => exact h l (by simp)
    | cons l2 ls2 =>
      show hasBadUrl (l ++ '\n' :: pyJoinChar '\n' (l2 :: ls2)) = false
      exact hasBadUrl_append_sep (by decide) (h l (by simp))
        (ih (fun x hx => h x (by simp [hx])))

/-! lemmas: `removeUrls` leaves no scheme followed by non-whitespace -/

lemma removeUrlsGo_nil (fuel : Nat) : removeUrlsGo fuel [] = [] := by
  cases fuel <;> rfl

lemma removeUrlsGo_prefix_reflect :
    ∀ (fuel : Nat) (s w : Str), (∀ c ∈ w, pyIsSpace c = false) → w ≠ [] →
      w <+: removeUrlsGo fuel s → w <+: s := by
  intro fuel
  induction fuel with
  | zero => intro s w _ _ h; simpa [removeUrlsGo] using h
  | succ fuel ih =>
    intro s w hns hne h
    cases s with
    | nil =>
      rw [removeUrlsGo_nil] at h
      rw [List.prefix_nil] at h
      exact absurd h hne
    | cons c rest =>
      cases hm : urlMatchLen (c :: rest) with
      | some n =>
        rw [show removeUrlsGo (fuel + 1) (c :: rest)
              = removeUrlsGo fuel ((c :: rest).drop n) from by
            rw [removeUrlsGo]; rw [hm]] at h
        have hw : w <+: (c :: rest).drop n := ih _ w hns hne h
        cases hdrop : (c :: rest).drop n with
        | nil =>
          rw [hdrop, List.prefix_nil] at hw
          exact absurd hw hne
        | cons e t =>
          have hsp : pyIsSpace e = true := by
            refine urlMatchLen_after hm ?_
            rw [hdrop]
            rfl
          rw [hdrop] at hw
          cases w with
          | nil => exact absurd rfl hne
          | cons w0 w' =>
            rw [List.cons_prefix_cons] at hw
            have := hns w0 (by simp)
            rw [hw.1] at this
            rw [this] at hsp
            exact absurd hsp (by simp)
      | none =>
        rw [show removeUrlsGo (fuel + 1) (c :: rest)
              = c :: removeUrlsGo fuel rest from by
            rw [removeUrlsGo]; rw [hm]] at h
        cases w with
        | nil => exact absurd rfl hne
        | cons w0 w' =>
          rw [List.cons_prefix_cons] at h
          by_cases hw' : w' = []
          · subst hw'
            rw [h.1]
            simp
          · have := ih rest w' (fun x hx => hns x (by simp [hx])) hw' h.2
            rw [List.cons_prefix_cons]
            exact ⟨h.1, this⟩

lemma removeUrlsGo_noBad :
    ∀ (fuel : Nat) (s : Str), s.length < fuel →
      hasBadUrl (removeUrlsGo fuel s) = false := by
  intro fuel
  induction fuel with
  | zero => intro s h; omega
  | succ fuel ih =>
    intro s hlen
    cases s with
    | nil => rw [removeUrlsGo_nil]; rfl
    | cons c rest =>
      cases hm : urlMatchLen (c :: rest) with
      | some n =>
        rw [show removeUrlsGo (fuel + 1) (c :: rest)
              = removeUrlsGo fuel ((c :: rest).drop n) from by
            rw [removeUrlsGo]; rw [hm]]
        refine ih _ ?_
        obtain ⟨h7, hle⟩ := urlMatchLen_bounds hm
        have : ((c :: rest).drop n).length = (c :: rest).length - n := by
          simp
        simp only [List.length_cons] at *
        omega
      | none =>
        rw [show removeUrlsGo (fuel + 1) (c :: rest)
              = c :: removeUrlsGo fuel rest from by
            rw [removeUrlsGo]; rw [hm]]
        have hR : hasBadUrl (removeUrlsGo fuel rest) = false := by
          refine ih rest ?_
          simp only [List.length_cons] at hlen
          omega
        show ((urlMatchLen (c :: removeUrlsGo fuel rest)).isSome
          || hasBadUrl (removeUrlsGo fuel rest)) = false
        rw [hR]
        suffices hnone : urlMatchLen (c :: removeUrlsGo fuel rest) = none by
          rw [hnone]
          rfl
        by_contra hne
        have hsome : ∃ m, urlMatchLen (c :: removeUrlsGo fuel rest) = some m := by
          cases hx : urlMatchLen (c :: removeUrlsGo fuel rest)
          · exact absurd hx hne
          · exact ⟨_, rfl⟩
        obtain ⟨m, hn⟩ := hsome
        obtain ⟨w, d, hw, hp, hd⟩ := urlMatchLen_scheme hn
        have hp' : (w ++ [d]) <+: removeUrlsGo (fuel + 1) (c :: rest) := by
          rw [show removeUrlsGo (fuel + 1) (c :: rest)
                = c :: removeUrlsGo fuel rest from by
              rw [removeUrlsGo]; rw [hm]]
          exact hp
        have hnsp : ∀ x ∈ w ++ [d], pyIsSpace x = false := by
          intro x hx
          rcases List.mem_append.mp hx with hx | hx
          · exact (scheme_chars hw x hx).1
          · rw [List.mem_singleton] at hx
            rw [hx]
            exact hd
        have hrefl : (w ++ [d]) <+: (c :: rest) :=
          removeUrlsGo_prefix_reflect (fuel + 1) (c :: rest) (w ++ [d]) hnsp
            (by rcases hw with rfl | rfl <;> simp [pyStr]) hp'
        have hcontra := urlMatchLen_isSome_of_scheme hw hrefl hd
        rw [hm] at hcontra
        exact absurd hcontra (by simp)

/-! lemmas: characters, lowercasing and whitespace -/

lemma char_toNat_ofNat {n : Nat} (h : n.isValidChar) : (Char.ofNat n).toNat = n := by
  rw [Char.ofNat, dif_pos h]
  rfl

lemma pyIsSpace_false_of_gt {c : Char} (h : 64 < c.toNat) : pyIsSpace c = false := by
  have s1 : c ≠ ' ' := fun he => absurd h (by rw [he]; decide)
  have s2 : c ≠ '\t' := fun he => absurd h (by rw [he]; decide)
  have s3 : c ≠ '\n' := fun he => absurd h (by rw [he]; decide)
  have s4 : c ≠ '\x0d' := fun he => absurd h (by rw [he]; decide)
  have s5 : c ≠ Char.ofNat 11 := fun he => absurd h (by rw [he]; decide)
  have s6 : c ≠ Char.ofNat 12 := fun he => absurd h (by rw [he]; decide)
  simp [pyIsSpace, s1, s2, s3, s4, s5, s6]

lemma pyIsSpace_toLower (c : Char) : pyIsSpace (Char.toLower c) = pyIsSpace c := by
  simp only [Char.toLower]
  split
  · next h =>
    obtain ⟨h1, h2⟩ := h
    have hv : (c.toNat + 32).isValidChar := Or.inl (by omega)
    have hlow := pyIsSpace_false_of_gt (c := Char.ofNat (c.toNat + 32))
      (by rw [char_toNat_ofNat hv]; omega)
    have hc := pyIsSpace_false_of_gt (c := c) (by omega)
    rw [hlow, hc]
  · rfl

/-! helper views of `pyStrip` -/

def leftTrim (s : Str) : Str := s.dropWhile pyIsSpace

def rightTrim (s : Str) : Str := (s.reverse.dropWhile pyIsSpace).reverse

lemma pyStrip_eq (s : Str) : pyStrip s = rightTrim (leftTrim s) := rfl

lemma pyLower_append (a b : Str) : pyLower (a ++ b) = pyLower a ++ pyLower b :=
  List.map_append _ _ _

lemma pyLower_length (s : Str) : (pyLower s).length = s.length := List.length_map _ _

lemma pyIsSpace_comp_toLower : (fun c => pyIsSpace (Char.toLower c)) = pyIsSpace :=
  funext pyIsSpace_toLower

lemma pyLower_dropWhile (s : Str) :
    (pyLower s).dropWhile pyIsSpace = pyLower (s.dropWhile pyIsSpace) := by
  rw [pyLower, List.dropWhile_map]
  rw [show (pyIsSpace ∘ Char.toLower) = pyIsSpace from funext fun c => pyIsSpace_toLower c]
  rfl

lemma pyLower_reverse (s : Str) : (pyLower s).reverse = pyLower s.reverse := by
  rw [pyLower, pyLower, List.map_reverse]

lemma pyLower_leftTrim (s : Str) : pyLower (leftTrim s) = leftTrim (pyLower s) := by
  rw [leftTrim, leftTrim, pyLower_dropWhile]

lemma pyLower_rightTrim (s : Str) : pyLower (rightTrim s) = rightTrim (pyLower s) := by
  rw [rightTrim, rightTrim, ← pyLower_reverse, ← pyLower_dropWhile, pyLower_reverse]

lemma rightTrim_pre (s : Str) : rightTrim s <+: s := by
  rw [rightTrim]
  have h := List.dropWhile_suffix (l := s.reverse) (p := pyIsSpace)
  rw [← List.reverse_prefix] at h
  simpa using h

lemma leftTrim_suf (s : Str) : ∃ a, s = a ++ leftTrim s :=
  ⟨s.takeWhile pyIsSpace, (List.takeWhile_append_dropWhile _ _).symm⟩

/-! lemmas: the `source:` line predicates -/

lemma srcAt_true_elim {s : Str} (h : srcAt s = true) :
    ∃ w, (w = pyStr "source:" ∨ w = pyStr "sources:") ∧ w <+: pyLower s := by
  rw [srcAt] at h
  rcases Bool.or_eq_true_iff.mp h with hx | hx
  · exact ⟨_, Or.inl rfl, by rwa [pyStartsWith, List.isPrefixOf_iff_prefix] at hx⟩
  · exact ⟨_, Or.inr rfl, by rwa [pyStartsWith, List.isPrefixOf_iff_prefix] at hx⟩

lemma srcAt_true_intro {s w : Str} (hw : w = pyStr "source:" ∨ w = pyStr "sources:")
    (h : w <+: pyLower s) : srcAt s = true := by
  rw [srcAt, Bool.or_eq_true_iff]
  rcases hw with rfl | rfl
  · left
    rwa [pyStartsWith, List.isPrefixOf_iff_prefix]
  · right
    rwa [pyStartsWith, List.isPrefixOf_iff_prefix]

lemma srcPat_props {w : Str} (hw : w = pyStr "source:" ∨ w = pyStr "sources:") :
    w ≠ [] ∧ ∀ c ∈ w, pyIsSpace c = false ∧ isLineTerm c = false := by
  rcases hw with rfl | rfl <;> exact ⟨by decide, by decide⟩

lemma srcAt_mono {u s : Str} (h : u <+: s) (ha : srcAt u = true) : srcAt s = true := by
  obtain ⟨w, hw, hp⟩ := srcAt_true_elim ha
  refine srcAt_true_intro hw (hp.trans ?_)
  obtain ⟨t, rfl⟩ := h
  rw [pyLower_append]
  exact List.prefix_append _ _

lemma pre_rightTrim {w v : Str} (hns : ∀ c ∈ w, pyIsSpace c = false)
    (h : w <+: v) : w <+: rightTrim v := by
  obtain ⟨r, rfl⟩ := h
  rw [rightTrim, List.reverse_append, List.dropWhile_append]
  split
  · next =>
    have hw : w.reverse.dropWhile pyIsSpace = w.reverse := by
      cases hwr : w.reverse with
      | nil => rfl
      | cons a t =>
        have ha : a ∈ w := by
          rw [← List.mem_reverse, hwr]
          simp
        rw [List.dropWhile_cons_of_neg (by rw [hns a ha]; simp)]
    rw [hw, List.reverse_reverse]
  · next =>
    rw [List.reverse_append, List.reverse_reverse]
    exact List.prefix_append _ _

lemma srcAt_rightTrim {s : Str} (h : srcAt s = true) : srcAt (rightTrim s) = true := by
  obtain ⟨w, hw, hp⟩ := srcAt_true_elim h
  obtain ⟨_, hprops⟩ := srcPat_props hw
  refine srcAt_true_intro hw ?_
  rw [pyLower_rightTrim]
  exact pre_rightTrim (fun c hc => (hprops c hc).1) hp

lemma srcAt_leftTrim_self {s : Str} (h : srcAt s = true) : leftTrim s = s := by
  obtain ⟨w, hw, hp⟩ := srcAt_true_elim h
  obtain ⟨hne, hprops⟩ := srcPat_props hw
  cases s with
  | nil => rfl
  | cons c s' =>
    cases w with
    | nil => exact absurd rfl hne
    | cons w0 w' =>
      have hpl : pyLower (c :: s') = Char.toLower c :: pyLower s' := rfl
      rw [hpl, List.cons_prefix_cons] at hp
      have hns : pyIsSpace c = false := by
        rw [← pyIsSpace_toLower, ← hp.1]
        exact (hprops w0 (by simp)).1
      rw [leftTrim, List.dropWhile_cons_of_neg (by rw [hns]; simp)]

lemma srcAt_append_sep {u t : Str} (hu : srcAt (rightTrim u) = false)
    (ht : t = [] ∨ ∃ t2, t = '\n' :: t2) : srcAt (u ++ t) = false := by
  by_contra hx
  have hx' : srcAt (u ++ t) = true := by
    cases hcase : srcAt (u ++ t)
    · exact absurd hcase hx
    · rfl
  obtain ⟨w, hw, hp⟩ := srcAt_true_elim hx'
  rw [pyLower_append] at hp
  obtain ⟨hne, hprops⟩ := srcPat_props hw
  by_cases hlen : w.length ≤ (pyLower u).length
  · have hpu : w <+: pyLower u := prefix_left_of_le hp hlen
    have h2 : srcAt (rightTrim u) = true := srcAt_rightTrim (srcAt_true_intro hw hpu)
    rw [hu] at h2
    exact absurd h2 (by simp)
  · obtain ⟨e, he, hmem⟩ := prefix_spill hp (by omega)
    rcases ht with rfl | ⟨t2, rfl⟩
    · rw [show pyLower ([] : Str) = [] from rfl] at he
      exact absurd he (by simp)
    · rw [show (pyLower ('\n' :: t2)).head? = some '\n' from rfl] at he
      have he2 : '\n' = e := by injection he
      have hterm := (hprops e hmem).2
      rw [← he2] at hterm
      exact absurd hterm (by decide)

lemma srcAfterTerm_false_of_noTerm {l : Str} (h : ∀ c ∈ l, isLineTerm c = false) :
    srcAfterTerm l = false := by
  induction l with
  | nil => rfl
  | cons c t ih =>
    show (isLineTerm c && srcAt t || srcAfterTerm t) = false
    rw [h c (by simp), ih (fun x hx => h x (by simp [hx]))]
    rfl

lemma srcAfterTerm_append_noTerm {l t : Str} (h : ∀ c ∈ l, isLineTerm c = false) :
    srcAfterTerm (l ++ t) = srcAfterTerm t := by
  induction l with
  | nil => rfl
  | cons c l' ih =>
    show (isLineTerm c && srcAt (l' ++ t) || srcAfterTerm (l' ++ t)) = srcAfterTerm t
    rw [h c (by simp), ih (fun x hx => h x (by simp [hx]))]
    simp

lemma srcAfterTerm_append_left {u t : Str} (h : srcAfterTerm u = true) :
    srcAfterTerm (u ++ t) = true := by
  induction u with
  | nil => exact absurd h (by simp [srcAfterTerm])
  | cons c u' ih =>
    have hstep : srcAfterTerm (c :: u') = (isLineTerm c && srcAt u' || srcAfterTerm u') := rfl
    rw [hstep] at h
    show (isLineTerm c && srcAt (u' ++ t) || srcAfterTerm (u' ++ t)) = true
    rcases Bool.or_eq_true_iff.mp h with hx | hx
    · obtain ⟨h1, h2⟩ := Bool.and_eq_true_iff.mp hx
      rw [h1, srcAt_mono (List.prefix_append u' t) h2]
      rfl
    · rw [ih hx]
      simp

lemma srcAfterTerm_append_right {l t : Str} (h : srcAfterTerm t = true) :
    srcAfterTerm (l ++ t) = true := by
  induction l with
  | nil => simpa using h
  | cons c l' ih =>
    show (isLineTerm c && srcAt (l' ++ t) || srcAfterTerm (l' ++ t)) = true
    rw [ih]
    simp

/-! lemmas: `pySplitLinesGo` unfolding and line invariants -/

lemma splitGo_nil (acc : Str) :
    pySplitLinesGo [] acc = if acc = [] then [] else [acc.reverse] := rfl

lemma splitGo_rn (rest acc : Str) :
    pySplitLinesGo ('\x0d' :: '\n' :: rest) acc = acc.reverse :: pySplitLinesGo rest [] := rfl

lemma splitGo_n (rest acc : Str) :
    pySplitLinesGo ('\n' :: rest) acc = acc.reverse :: pySplitLinesGo rest [] := rfl

lemma splitGo_r (rest acc : Str) (hne : ∀ r1, rest = '\n' :: r1 → False) :
    pySplitLinesGo ('\x0d' :: rest) acc = acc.reverse :: pySplitLinesGo rest [] := by
  rw [pySplitLinesGo.eq_def]
  split
  · rename_i heq
    exact (List.cons_ne_nil _ _ heq).elim
  · rename_i r2 heq
    injection heq with h1 h2
    exact (hne r2 h2).elim
  · rename_i r2 heq
    injection heq with h1 h2
    rw [h2]
  · rename_i r2 heq
    injection heq with h1 h2
    exact absurd h1 (by decide)
  · rename_i c2 r2 hx1 hx2 hx3 heq
    injection heq with h1 h2
    exact (hx2 h1.symm).elim

lemma splitGo_other (c : Char) (rest acc : Str) (h2 : ¬ c = '\x0d') (h3 : ¬ c = '\n') :
    pySplitLinesGo (c :: rest) acc = pySplitLinesGo rest (c :: acc) := by
  rw [pySplitLinesGo.eq_def]
  split
  · rename_i heq
    exact (List.cons_ne_nil _ _ heq).elim
  · rename_i r2 heq
    injection heq with ha hb
    exact absurd ha h2
  · rename_i r2 heq
    injection heq with ha hb
    exact absurd ha h2
  · rename_i r2 heq
    injection heq with ha hb
    exact absurd ha h3
  · rename_i c2 r2 hx1 hx2 hx3 heq
    injection heq with ha hb
    rw [ha, hb]

lemma splitLinesGo_noTerm : ∀ (s acc : Str), (∀ c ∈ acc, isLineTerm c = false) →
    ∀ l ∈ pySplitLinesGo s acc, ∀ c ∈ l, isLineTerm c = false := by
  intro s acc
  induction s, acc using pySplitLinesGo.induct with
  | case1 =>
    intro _ l hl
    rw [splitGo_nil] at hl
    simp at hl
  | case2 acc h =>
    intro hacc l hl
    rw [splitGo_nil, if_neg h, List.mem_singleton] at hl
    subst hl
    intro c hc
    exact hacc c (List.mem_reverse.mp hc)
  | case3 rest acc ih =>
    intro hacc l hl
    rw [splitGo_rn] at hl
    rcases List.mem_cons.mp hl with rfl | hl
    · intro c hc
      exact hacc c (List.mem_reverse.mp hc)
    · exact ih (by intro c hc; simp at hc) l hl
  | case4 rest acc hne ih =>
    intro hacc l hl
    rw [splitGo_r rest acc hne] at hl
    rcases List.mem_cons.mp hl with rfl | hl
    · intro c hc
      exact hacc c (List.mem_reverse.mp hc)
    · exact ih (by intro c hc; simp at hc) l hl
  | case5 rest acc ih =>
    intro hacc l hl
    rw [splitGo_n] at hl
    rcases List.mem_cons.mp hl with rfl | hl
    · intro c hc
      exact hacc c (List.mem_reverse.mp hc)
    · exact ih (by intro c hc; simp at hc) l hl
  | case6 c rest acc hx1 hx2 hx3 ih =>
    intro hacc l hl
    rw [splitGo_other c rest acc hx2 hx3] at hl
    refine ih ?_ l hl
    intro x hx
    rcases List.mem_cons.mp hx with rfl | hx
    · rw [isLineTerm]
      simp only [Bool.or_eq_false_iff, decide_eq_false_iff_not]
      exact ⟨hx3, hx2⟩
    · exact hacc x hx

lemma splitLinesGo_noBad : ∀ (s acc : Str), ∀ l ∈ pySplitLinesGo s acc,
    hasBadUrl l = true → hasBadUrl (acc.reverse ++ s) = true := by
  intro s acc
  induction s, acc using pySplitLinesGo.induct with
  | case1 =>
    intro l hl
    rw [splitGo_nil] at hl
    simp at hl
  | case2 acc h =>
    intro l hl hbad
    rw [splitGo_nil, if_neg h, List.mem_singleton] at hl
    subst hl
    exact hasBadUrl_append_left hbad
  | case3 rest acc ih =>
    intro l hl hbad
    rw [splitGo_rn] at hl
    rcases List.mem_cons.mp hl with rfl | hl
    · exact hasBadUrl_append_left hbad
    · have h1 := ih l hl hbad
      rw [show (([] : Str).reverse ++ rest) = rest from by simp] at h1
      exact hasBadUrl_append_right (hasBadUrl_append_right (a := ['\x0d']) h1)
  | case4 rest acc hne ih =>
    intro l hl hbad
    rw [splitGo_r rest acc hne] at hl
    rcases List.mem_cons.mp hl with rfl | hl
    · exact hasBadUrl_append_left hbad
    · have h1 := ih l hl hbad
      rw [show (([] : Str).reverse ++ rest) = rest from by simp] at h1
      exact hasBadUrl_append_right (a := acc.reverse) (hasBadUrl_append_right (a := ['\x0d']) h1)
  | case5 rest acc ih =>
    intro l hl hbad
    rw [splitGo_n] at hl
    rcases List.mem_cons.mp hl with rfl | hl
    · exact hasBadUrl_append_left hbad
    · have h1 := ih l hl hbad
      rw [show (([] : Str).reverse ++ rest) = rest from by simp] at h1
      exact hasBadUrl_append_right (a := acc.reverse) (hasBadUrl_append_right (a := ['\n']) h1)
  | case6 c rest acc hx1 hx2 hx3 ih =>
    intro l hl hbad
    rw [splitGo_other c rest acc hx2 hx3] at hl
    have h1 := ih l hl hbad
    rw [List.reverse_cons, List.append_assoc] at h1
    exact h1

/-! joining the kept lines -/

lemma join_keepLines : ∀ (ls : List Str),
    (∀ l ∈ ls, (∀ c ∈ l, isLineTerm c = false) ∧ srcAt (pyStrip l) = false) →
    srcAt (leftTrim (pyJoinChar '\n' ls)) = false
      ∧ srcAfterTerm (pyJoinChar '\n' ls) = false := by
  intro ls
  induction ls with
  | nil =>
    intro _
    exact ⟨by decide, rfl⟩
  | cons l ls' ih =>
    intro h
    obtain ⟨hnt, hsrc⟩ := h l (by simp)
    rw [pyStrip_eq] at hsrc
    cases ls' with
    | nil =>
      rw [show pyJoinChar '\n' [l] = l from rfl]
      constructor
      · have h1 := srcAt_append_sep (t := []) hsrc (Or.inl rfl)
        rw [List.append_nil] at h1
        exact h1
      · exact srcAfterTerm_false_of_noTerm hnt
    | cons l2 ls2 =>
      rw [show pyJoinChar '\n' (l :: l2 :: ls2)
            = l ++ '\n' :: pyJoinChar '\n' (l2 :: ls2) from rfl]
      have ihh := ih (fun x hx => h x (by simp [hx]))
      have hJ : srcAt (pyJoinChar '\n' (l2 :: ls2)) = false := by
        cases hcase : srcAt (pyJoinChar '\n' (l2 :: ls2))
        · rfl
        · exfalso
          have hself := srcAt_leftTrim_self hcase
          rw [← hself] at hcase
          rw [ihh.1] at hcase
          exact absurd hcase (by simp)
      constructor
      · rw [leftTrim, List.dropWhile_append]
        split
        · next =>
          rw [List.dropWhile_cons_of_pos (by decide)]
          exact ihh.1
        · next =>
          exact srcAt_append_sep hsrc (Or.inr ⟨_, rfl⟩)
      · rw [srcAfterTerm_append_noTerm hnt]
        show (isLineTerm '\n' && srcAt (pyJoinChar '\n' (l2 :: ls2))
          || srcAfterTerm (pyJoinChar '\n' (l2 :: ls2))) = false
        rw [hJ, ihh.2]
        rfl

/-- every kept line of the cleaned answer is terminator-free, passes the
source-line filter and contains no URL match. -/
lemma kept_line_props (raw : Str) :
    ∀ l ∈ (pySplitLines (removeUrls raw)).filter keepLine,
      (∀ c ∈ l, isLineTerm c = false) ∧ srcAt (pyStrip l) = false ∧ hasBadUrl l = false := by
  intro l hl
  have hmem : l ∈ pySplitLines (removeUrls raw) := List.mem_of_mem_filter hl
  have hkeep : keepLine l = true := List.of_mem_filter hl
  refine ⟨?_, ?_, ?_⟩
  · exact splitLinesGo_noTerm (removeUrls raw) [] (by intro c hc; simp at hc) l hmem
  · rw [keepLine] at hkeep
    cases hcase : srcAt (pyStrip l)
    · rfl
    · rw [hcase] at hkeep
      exact absurd hkeep (by decide)
  · cases hcase : hasBadUrl l
    · rfl
    · exfalso
      have h1 := splitLinesGo_noBad (removeUrls raw) [] l hmem hcase
      rw [show (([] : Str).reverse ++ removeUrls raw) = removeUrls raw from by simp] at h1
      have hnb : hasBadUrl (removeUrls raw) = false :=
        removeUrlsGo_noBad (raw.length + 1) raw (by omega)
      rw [hnb] at h1
      exact absurd h1 (by simp)

/-- stripping the joined kept lines yields a string with no URL match and
no line starting with `source:`/`sources:`. -/
lemma final_strip_props {ls : List Str}
    (h : ∀ l ∈ ls,
      (∀ c ∈ l, isLineTerm c = false) ∧ srcAt (pyStrip l) = false ∧ hasBadUrl l = false) :
    hasBadUrl (pyStrip (pyJoinChar '\n' ls)) = false
      ∧ hasSrcLineStart (pyStrip (pyJoinChar '\n' ls)) = false := by
  have hjoin := join_keepLines ls (fun l hl => ⟨(h l hl).1, (h l hl).2.1⟩)
  have hJbad : hasBadUrl (pyJoinChar '\n' ls) = false :=
    hasBadUrl_join (fun l hl => (h l hl).2.2)
  rw [pyStrip_eq]
  constructor
  · cases hcase : hasBadUrl (rightTrim (leftTrim (pyJoinChar '\n' ls)))
    · rfl
    · exfalso
      have h2 : hasBadUrl (leftTrim (pyJoinChar '\n' ls)) = true := by
        obtain ⟨t, ht⟩ := rightTrim_pre (leftTrim (pyJoinChar '\n' ls))
        rw [← ht]
        exact hasBadUrl_append_left hcase
      have h3 : hasBadUrl (pyJoinChar '\n' ls) = true := by
        obtain ⟨a, ha⟩ := leftTrim_suf (pyJoinChar '\n' ls)
        rw [ha]
        exact hasBadUrl_append_right h2
      rw [hJbad] at h3
      exact absurd h3 (by simp)
  · have hsrc : srcAt (rightTrim (leftTrim (pyJoinChar '\n' ls))) = false := by
      cases hcase : srcAt (rightTrim (leftTrim (pyJoinChar '\n' ls)))
      · rfl
      · exfalso
        have h2 := srcAt_mono (rightTrim_pre (leftTrim (pyJoinChar '\n' ls))) hcase
        rw [hjoin.1] at h2
        exact absurd h2 (by simp)
    have hterm : srcAfterTerm (rightTrim (leftTrim (pyJoinChar '\n' ls))) = false := by
      cases hcase : srcAfterTerm (rightTrim (leftTrim (pyJoinChar '\n' ls)))
      · rfl
      · exfalso
        have h2 : srcAfterTerm (leftTrim (pyJoinChar '\n' ls)) = true := by
          obtain ⟨t, ht⟩ := rightTrim_pre (leftTrim (pyJoinChar '\n' ls))
          rw [← ht]
          exact srcAfterTerm_append_left hcase
        have h3 : srcAfterTerm (pyJoinChar '\n' ls) = true := by
          obtain ⟨a, ha⟩ := leftTrim_suf (pyJoinChar '\n' ls)
          rw [ha]
          exact srcAfterTerm_append_right h2
        rw [hjoin.2] at h3
        exact absurd h3 (by simp)
    rw [hasSrcLineStart, hsrc, hterm]
    rfl

lemma cleanedAnswer_props (raw : Str) :
    hasBadUrl (cleanedAnswer raw) = false ∧ hasSrcLineStart (cleanedAnswer raw) = false :=
  final_strip_props (kept_line_props raw)

/-- C4 (amended): for every question that is not classified as a location
query, the answer returned by `synthesize_comprehensive_answer` either
contains no `https?://`-followed-by-non-whitespace substring and no line
beginning (case-insensitively) with `source:` or `sources:`, or the
post-processing removed everything and the unmodified raw answer is
returned as a fallback (in which case no scrubbing guarantee holds). -/
theorem synthesize_no_urls (q : Str) (docs : List Str) (llm : Except Str (Option Str))
    (hq : is_location_query q = false) :
    (hasBadUrl (synthesize_comprehensive_answer q docs llm) = false
      ∧ hasSrcLineStart (synthesize_comprehensive_answer q docs llm) = false)
    ∨ (∃ t, llm = Except.ok t ∧ cleanedAnswer (rawAnswerOf t) = []
        ∧ synthesize_comprehensive_answer q docs llm = rawAnswerOf t) := by
  by_cases hd : docs = []
  · left
    rw [synthesize_comprehensive_answer.eq_def, if_pos hd]
    exact ⟨by decide, by decide⟩
  · cases llm with
    | error e =>
      left
      rw [synthesize_comprehensive_answer.eq_def, if_neg hd]
      show hasBadUrl msgSynthError = false ∧ hasSrcLineStart msgSynthError = false
      exact ⟨by decide, by decide⟩
    | ok t =>
      have hans : synthesize_comprehensive_answer q docs (Except.ok t)
          = postprocessAnswer q (rawAnswerOf t) := by
        rw [synthesize_comprehensive_answer.eq_def, if_neg hd]
      by_cases hc : cleanedAnswer (rawAnswerOf t) = []
      · right
        refine ⟨t, rfl, hc, ?_⟩
        rw [hans, postprocessAnswer, hq, if_neg (by simp), if_pos hc]
      · left
        rw [hans, postprocessAnswer, hq, if_neg (by simp), if_neg hc]
        exact cleanedAnswer_props (rawAnswerOf t)

/-- C4 (witness): the amended theorem applied at a concrete non-location
question with no documents. -/
theorem synthesize_no_urls_witness :
    is_location_query (pyStr "hi") = false ∧
    ((hasBadUrl (synthesize_comprehensive_answer (pyStr "hi") [] (Except.error [])) = false
      ∧ hasSrcLineStart (synthesize_comprehensive_answer (pyStr "hi") [] (Except.error [])) = false)
    ∨ (∃ t, (Except.error [] : Except Str (Option Str)) = Except.ok t
        ∧ cleanedAnswer (rawAnswerOf t) = []
        ∧ synthesize_comprehensive_answer (pyStr "hi") [] (Except.error []) = rawAnswerOf t)) :=
  ⟨by decide, synthesize_no_urls (pyStr "hi") [] (Except.error []) (by decide)⟩

/-- C4 (counterexample): when the LLM answer is exactly one URL, the
post-processing removes everything, so the `if cleaned:` fallback
(app_20.py 1158-1159) returns the original answer unchanged and the
returned string still contains a `https?://` match, refuting the claim
that the answer never does. -/
theorem synthesize_url_counterexample :
    is_location_query (pyStr "what do you offer") = false ∧
    hasBadUrl (synthesize_comprehensive_answer (pyStr "what do you offer")
      [pyStr "doc"] (Except.ok (some (pyStr "https://a.b")))) = true := by
  exact ⟨by decide, by decide⟩

/-! # C1 — TenantChatbotManager.invalidate_tenant (app_20.py 1788-1835)

Python dicts keyed by the cache key are modelled as association lists with
first-match lookup; `d[k] = v` replaces in place, `del d[k]` removes. -/

def dictGet {α : Type} (l : List (Str × α)) (k : Str) : Option α :=
  (l.find? fun p => p.1 = k).map (·.2)

def dictDel {α : Type} (l : List (Str × α)) (k : Str) : List (Str × α) :=
  l.filter fun p => p.1 ≠ k

def dictSet {α : Type} (l : List (Str × α)) (k : Str) (v : α) : List (Str × α) :=
  if (l.find? fun p => p.1 = k).isSome then
    l.map fun p => if p.1 = k then (k, v) else p
  else l ++ [(k, v)]

/-- the observable state of a `SemanticIntelligentRAG` instance relevant to
teardown: whether a Mongo client is attached, whether its pool was closed,
and whether a Chroma client handle is attached. -/
structure RAGHandle where
  mongo_client : Bool
  mongo_closed : Bool
  chroma_client : Bool
deriving DecidableEq, Repr

structure TenantManager where
  instances : List (Str × RAGHandle)
  last_reload : List (Str × Nat)
  needs_reload : List (Str × Bool)
deriving DecidableEq, Repr

/-- `resolved_db_uri = database_uri or os.getenv("MONGODB_URI", ...)`:
a `None` or empty `database_uri` falls back to the environment value. -/
def resolvedDbUri (env : Str) : Option Str → Str
  | some u => if u = [] then env else u
  | none => env

/-- `cache_key = f"{resolved_path}::{resolved_db_uri}"` where
`resolved_path = os.path.abspath(vector_store_path)` (the `abspath`
resolution is an environment oracle). -/
def cacheKeyOf (abspath : Str → Str) (env : Str) (vsp : Str) (dbu : Option Str) : Str :=
  abspath vsp ++ pyStr "::" ++ resolvedDbUri env dbu

/-- teardown performed on a found instance: Mongo pool closed when a client
is attached (the attribute itself is kept), Chroma handle cleared. -/
def teardownHandle (h : RAGHandle) : RAGHandle :=
  { h with mongo_closed := h.mongo_closed || h.mongo_client, chroma_client := false }

/-- `TenantChatbotManager.invalidate_tenant` (app_20.py 1788-1835): returns
the bool result, the new manager state, and the torn-down instance if one
was cached. -/
def invalidate_tenant (abspath : Str → Str) (env : Str) (m : TenantManager)
    (vsp : Str) (dbu : Option Str) : Bool × TenantManager × Option RAGHandle :=
  match dictGet m.instances (cacheKeyOf abspath env vsp dbu) with
  | some inst =>
      (true,
       { instances := dictDel m.instances (cacheKeyOf abspath env vsp dbu),
         last_reload := dictDel m.last_reload (cacheKeyOf abspath env vsp dbu),
         needs_reload := dictDel m.needs_reload (cacheKeyOf abspath env vsp dbu) },
       some (teardownHandle inst))
  | none =>
      (false,
       { m with needs_reload := dictSet m.needs_reload (cacheKeyOf abspath env vsp dbu) true },
       none)

lemma dictGet_dictDel {α : Type} (l : List (Str × α)) (k : Str) :
    dictGet (dictDel l k) k = none := by
  induction l with
  | nil => rfl
  | cons p t ih =>
    by_cases hp : p.1 = k
    · rw [dictDel, List.filter_cons_of_neg (by simp [hp])]
      exact ih
    · rw [dictDel, List.filter_cons_of_pos (by simp [hp])]
      rw [dictGet, List.find?_cons_of_neg _ (by simp [hp])]
      exact ih

lemma dictGet_dictSet {α : Type} (l : List (Str × α)) (k : Str) (v : α) :
    dictGet (dictSet l k v) k = some v := by
  rw [dictSet]
  split
  · next hfound =>
    induction l with
    | nil => simp at hfound
    | cons p t ih =>
      by_cases hp : p.1 = k
      · rw [List.map_cons, if_pos hp]
        rw [dictGet, List.find?_cons_of_pos _ (by simp)]
        rfl
      · rw [List.map_cons, if_neg hp]
        rw [dictGet, List.find?_cons_of_neg _ (by simp [hp])]
        refine ih ?_
        rw [List.find?_cons_of_neg _ (by simp [hp])] at hfound
        exact hfound
  · next hnf =>
    induction l with
    | nil =>
      rw [List.nil_append, dictGet, List.find?_cons_of_pos _ (by simp)]
      rfl
    | cons p t ih =>
      by_cases hp : p.1 = k
      · exfalso
        rw [List.find?_cons_of_pos _ (by simp [hp])] at hnf
        exact hnf (by simp)
      · rw [List.cons_append, dictGet, List.find?_cons_of_neg _ (by simp [hp])]
        refine ih ?_
        intro hx
        refine hnf ?_
        rw [List.find?_cons_of_neg _ (by simp [hp])]
        exact hx

/-- C1 (amended): when an instance is cached under the cache key,
`invalidate_tenant` returns `true`, tears the instance down (Mongo pool
closed when attached, Chroma handle cleared) and deletes all three
bookkeeping entries — in particular the `needs_reload` entry is *deleted*,
not set to `true`, so the lookup afterwards yields `none`; only when no
instance is cached does it return `false` and set `needs_reload = true`. -/
theorem invalidate_tenant_characterisation (abspath : Str → Str) (env : Str)
    (m : TenantManager) (vsp : Str) (dbu : Option Str) :
    (∀ inst, dictGet m.instances (cacheKeyOf abspath env vsp dbu) = some inst →
        invalidate_tenant abspath env m vsp dbu =
          (true,
           { instances := dictDel m.instances (cacheKeyOf abspath env vsp dbu),
             last_reload := dictDel m.last_reload (cacheKeyOf abspath env vsp dbu),
             needs_reload := dictDel m.needs_reload (cacheKeyOf abspath env vsp dbu) },
           some (teardownHandle inst))
        ∧ dictGet (invalidate_tenant abspath env m vsp dbu).2.1.needs_reload
            (cacheKeyOf abspath env vsp dbu) = none)
    ∧ (dictGet m.instances (cacheKeyOf abspath env vsp dbu) = none →
        invalidate_tenant abspath env m vsp dbu =
          (false,
           { m with needs_reload :=
               dictSet m.needs_reload (cacheKeyOf abspath env vsp dbu) true },
           none)
        ∧ dictGet (invalidate_tenant abspath env m vsp dbu).2.1.needs_reload
            (cacheKeyOf abspath env vsp dbu) = some true) := by
  constructor
  · intro inst h
    have he : invalidate_tenant abspath env m vsp dbu =
        (true,
         { instances := dictDel m.instances (cacheKeyOf abspath env vsp dbu),
           last_reload := dictDel m.last_reload (cacheKeyOf abspath env vsp dbu),
           needs_reload := dictDel m.needs_reload (cacheKeyOf abspath env vsp dbu) },
         some (teardownHandle inst)) := by
      unfold invalidate_tenant
      rw [h]
    refine ⟨he, ?_⟩
    rw [he]
    exact dictGet_dictDel _ _
  · intro h
    have he : invalidate_tenant abspath env m vsp dbu =
        (false,
         { m with needs_reload :=
             dictSet m.needs_reload (cacheKeyOf abspath env vsp dbu) true },
         none) := by
      unfold invalidate_tenant
      rw [h]
    refine ⟨he, ?_⟩
    rw [he]
    exact dictGet_dictSet _ _ _

/-- C1 (witness): the amended theorem applied to a concrete manager with
one cached instance. -/
theorem invalidate_tenant_characterisation_witness :
    dictGet (TenantManager.mk [(pyStr "p::u", RAGHandle.mk true false true)] [] []).instances
        (cacheKeyOf (fun s => s) (pyStr "e") (pyStr "p") (some (pyStr "u")))
      = some (RAGHandle.mk true false true)
    ∧ (invalidate_tenant (fun s => s) (pyStr "e")
           (TenantManager.mk [(pyStr "p::u", RAGHandle.mk true false true)] [] [])
           (pyStr "p") (some (pyStr "u")) =
         (true,
          { instances := dictDel (TenantManager.mk
                [(pyStr "p::u", RAGHandle.mk true false true)] [] []).instances
              (cacheKeyOf (fun s => s) (pyStr "e") (pyStr "p") (some (pyStr "u"))),
            last_reload := dictDel (TenantManager.mk
                [(pyStr "p::u", RAGHandle.mk true false true)] [] []).last_reload
              (cacheKeyOf (fun s => s) (pyStr "e") (pyStr "p") (some (pyStr "u"))),
            needs_reload := dictDel (TenantManager.mk
                [(pyStr "p::u", RAGHandle.mk true false true)] [] []).needs_reload
              (cacheKeyOf (fun s => s) (pyStr "e") (pyStr "p") (some (pyStr "u"))) },
          some (teardownHandle (RAGHandle.mk true false true)))
        ∧ dictGet (invalidate_tenant (fun s => s) (pyStr "e")
             (TenantManager.mk [(pyStr "p::u", RAGHandle.mk true false true)] [] [])
             (pyStr "p") (some (pyStr "u"))).2.1.needs_reload
            (cacheKeyOf (fun s => s) (pyStr "e") (pyStr "p") (some (pyStr "u"))) = none) :=
  ⟨by decide,
   (invalidate_tenant_characterisation (fun s => s) (pyStr "e")
       (TenantManager.mk [(pyStr "p::u", RAGHandle.mk true false true)] [] [])
       (pyStr "p") (some (pyStr "u"))).1
     (RAGHandle.mk true false true) (by decide)⟩

/-- C1 (counterexample): with an instance cached under the key, the claim
that `needs_reload` is left `true` "in every case" fails — after the call
the entry is absent, not `true`. -/
theorem invalidate_tenant_counterexample :
    (invalidate_tenant (fun s => s) (pyStr "e")
        (TenantManager.mk [(pyStr "p::u", RAGHandle.mk true false true)] [] [])
        (pyStr "p") (some (pyStr "u"))).1 = true
    ∧ ¬ (dictGet (invalidate_tenant (fun s => s) (pyStr "e")
          (TenantManager.mk [(pyStr "p::u", RAGHandle.mk true false true)] [] [])
          (pyStr "p") (some (pyStr "u"))).2.1.needs_reload
          (cacheKeyOf (fun s => s) (pyStr "e") (pyStr "p") (some (pyStr "u"))) = some true) :=
  ⟨by decide, by decide⟩

/-! # C3 — ContentChangeDetectorSpider.parse (updater.py 290-435)

The URL-tracking Mongo collection is a list of records; `find_one` is
first-match lookup, `update_one` with `$set` edits the named fields of the
first match (inserting on `upsert=True`).  Body-text extraction, text
cleaning, SHA-256 and the parent spider's extraction are oracles. -/

structure TrackRec where
  url : Str
  content_hash : Option Str
  last_checked : Nat
  last_modified : Nat
deriving DecidableEq, Repr

def findRec (l : List TrackRec) (u : Str) : Option TrackRec :=
  l.find? fun r => r.url = u

def updateFirst (l : List TrackRec) (u : Str) (f : TrackRec → TrackRec) : List TrackRec :=
  match l with
  | [] => []
  | r :: t => if r.url = u then f r :: t else r :: updateFirst t u f

/-- `$set` of all four fields, with upsert (updater.py 342-356). -/
def upsertAllFields (l : List TrackRec) (u h : Str) (now : Nat) : List TrackRec :=
  if (l.find? fun r => r.url = u).isSome then
    updateFirst l u fun r =>
      { r with url := u, content_hash := some h, last_checked := now, last_modified := now }
  else l ++ [⟨u, some h, now, now⟩]

inductive UpdTag where
  | emptyPage
  | newUrl
  | modifiedUrl
  | unchangedUrl
deriving DecidableEq, Repr

structure UpdResult where
  items : List Str
  tracking : List TrackRec
  followedLinks : Bool
  tag : UpdTag
deriving DecidableEq, Repr

/-- `ContentChangeDetectorSpider.parse` (updater.py 290-435): change
detection on the cleaned preview hash; `items` are the extraction items
yielded via the parent's `parse_page` (each later becoming vector
documents), `followedLinks` records a `_discover_and_follow_links` call. -/
def updaterParse (cleanFn hashFn : Str → Str) (parsePageItems : Str → List Str)
    (tracking : List TrackRec) (now : Nat) (url preview : Str) : UpdResult :=
  if preview = [] ∨ (pyStrip preview).length < 10 then
    ⟨[], tracking, true, .emptyPage⟩
  else
    match findRec tracking url with
    | none =>
        ⟨parsePageItems url,
         upsertAllFields tracking url (hashFn (cleanFn preview)) now,
         false, .newUrl⟩
    | some r =>
        if r.content_hash ≠ some (hashFn (cleanFn preview)) then
          ⟨parsePageItems url,
           updateFirst tracking url fun q =>
             { q with content_hash := some (hashFn (cleanFn preview)),
                      last_checked := now, last_modified := now },
           false, .modifiedUrl⟩
        else
          ⟨[],
           updateFirst tracking url fun q => { q with last_checked := now },
           true, .unchangedUrl⟩

lemma findRec_updateFirst (l : List TrackRec) (u : Str) (f : TrackRec → TrackRec)
    (hf : ∀ r, (f r).url = r.url) (r : TrackRec) (h : findRec l u = some r) :
    findRec (updateFirst l u f) u = some (f r) := by
  induction l with
  | nil => simp [findRec] at h
  | cons a t ih =>
    by_cases ha : a.url = u
    · rw [findRec, List.find?_cons_of_pos _ (by simp [ha])] at h
      injection h with h
      subst h
      rw [updateFirst, if_pos ha, findRec,
        List.find?_cons_of_pos _ (by simp [hf, ha])]
    · rw [findRec, List.find?_cons_of_neg _ (by simp [ha])] at h
      rw [updateFirst, if_neg ha, findRec, List.find?_cons_of_neg _ (by simp [ha])]
      exact ih h

/-- C3: when the stored hash matches the hash of the cleaned preview (and
the preview passes the ten-character gate), the updater yields no
extraction items (so the page is not re-chunked, not re-embedded and
contributes zero new vector documents), updates only `last_checked` in the
URL's tracking record — `content_hash` and `last_modified` are unchanged —
and still follows outbound links. -/
theorem updater_unchanged_frame (cleanFn hashFn : Str → Str)
    (parsePageItems : Str → List Str) (tracking : List TrackRec) (now : Nat)
    (url preview : Str)
    (hlen : ¬ (preview = [] ∨ (pyStrip preview).length < 10))
    (r : TrackRec) (hfind : findRec tracking url = some r)
    (hhash : r.content_hash = some (hashFn (cleanFn preview))) :
    (updaterParse cleanFn hashFn parsePageItems tracking now url preview).items = []
    ∧ (updaterParse cleanFn hashFn parsePageItems tracking now url preview).followedLinks = true
    ∧ (updaterParse cleanFn hashFn parsePageItems tracking now url preview).tracking
        = updateFirst tracking url (fun q => { q with last_checked := now })
    ∧ findRec (updaterParse cleanFn hashFn parsePageItems tracking now url preview).tracking url
        = some { r with last_checked := now } := by
  have he : updaterParse cleanFn hashFn parsePageItems tracking now url preview
      = ⟨[], updateFirst tracking url fun q => { q with last_checked := now },
         true, .unchangedUrl⟩ := by
    rw [updaterParse, if_neg hlen]
    simp only [hfind]
    rw [if_neg (by simp [hhash])]
  refine ⟨by rw [he], by rw [he], by rw [he], ?_⟩
  rw [he]
  exact findRec_updateFirst tracking url (fun q => { q with last_checked := now })
    (fun q => rfl) r hfind

/-- C3 (witness): the theorem applied to a concrete tracking store whose
record already holds the hash of the cleaned preview. -/
theorem updater_unchanged_frame_witness :
    (¬ ((pyStr "previewtext!") = [] ∨ (pyStrip (pyStr "previewtext!")).length < 10))
    ∧ findRec [TrackRec.mk (pyStr "u") (some (pyStr "previewtext!")) 0 0] (pyStr "u")
        = some (TrackRec.mk (pyStr "u") (some (pyStr "previewtext!")) 0 0)
    ∧ ((updaterParse (fun s => s) (fun s => s) (fun _ => [pyStr "item"])
          [TrackRec.mk (pyStr "u") (some (pyStr "previewtext!")) 0 0] 5
          (pyStr "u") (pyStr "previewtext!")).items = []
      ∧ (updaterParse (fun s => s) (fun s => s) (fun _ => [pyStr "item"])
          [TrackRec.mk (pyStr "u") (some (pyStr "previewtext!")) 0 0] 5
          (pyStr "u") (pyStr "previewtext!")).followedLinks = true
      ∧ (updaterParse (fun s => s) (fun s => s) (fun _ => [pyStr "item"])
          [TrackRec.mk (pyStr "u") (some (pyStr "previewtext!")) 0 0] 5
          (pyStr "u") (pyStr "previewtext!")).tracking
          = updateFirst [TrackRec.mk (pyStr "u") (some (pyStr "previewtext!")) 0 0]
              (pyStr "u") (fun q => { q with last_checked := 5 })
      ∧ findRec (updaterParse (fun s => s) (fun s => s) (fun _ => [pyStr "item"])
          [TrackRec.mk (pyStr "u") (some (pyStr "previewtext!")) 0 0] 5
          (pyStr "u") (pyStr "previewtext!")).tracking (pyStr "u")
          = some { TrackRec.mk (pyStr "u") (some (pyStr "previewtext!")) 0 0
                     with last_checked := 5 }) :=
  ⟨by decide, by decide,
   updater_unchanged_frame (fun s => s) (fun s => s) (fun _ => [pyStr "item"])
     [TrackRec.mk (pyStr "u") (some (pyStr "previewtext!")) 0 0] 5
     (pyStr "u") (pyStr "previewtext!") (by decide)
     (TrackRec.mk (pyStr "u") (some (pyStr "previewtext!")) 0 0) (by decide) (by decide)⟩

/-! # C2, C9, C10 — SemanticIntelligentRAG.chat (app_20.py 1353-1653)

The engine's per-session dictionaries are association lists; external
collaborators (the vector store, the LLM, the cross-encoder, clocks, and
the location fast path's URL rerank) are oracles.  Exceptions are the
`Except` error channel carrying the Python exception text together with
the state at the moment of the raise (mutations made before a raise
persist). -/

structure Ctx where
  username : Option Str
  phone : Option Str
  email : Option Str
  original_pricing_question : Option Str
  lead_collected : Bool
  last_question : Option Str
  last_answer : Option Str
deriving DecidableEq, Repr

def emptyCtx : Ctx := ⟨none, none, none, none, false, none, none⟩

structure NameState where
  waiting_for_name : Bool
  name_collected : Bool
  question_count : Nat
deriving DecidableEq, Repr

inductive LeadStep where
  | name
  | phone
  | email
deriving DecidableEq, Repr

structure LeadState where
  original_question : Str
  current_step : LeadStep
  name : Str
  phone : Str
  email : Str
  started_at : Nat
deriving DecidableEq, Repr

structure LeadRec where
  name : Str
  phone : Str
  email : Str
  original_question : Str
  session_id : Str
  created_at : Nat
  source : Str
  status : Str
  last_contact : Nat
deriving DecidableEq, Repr

structure ChatState where
  conversation_contexts : List (Str × Ctx)
  name_collection_states : List (Str × NameState)
  lead_collection_states : List (Str × LeadState)
  last_sources_by_session : List (Str × List Str)
  leads_collection : Option (List LeadRec)
deriving DecidableEq, Repr

/-- external collaborators of `chat`:
`queryText q n` = `collection.query(query_texts=[q], n_results=n)` document
list (`error` = raised exception); `queryEmbedding` = the embedding-based
query keyed by the encoded text, paired with distances; `llm q docs` = the
LLM outcome for the synthesis prompt built from `q` and `docs`; `ce` = the
cross-encoder; `locFast q` = the location fast path's deterministic URL
rerank (`none` both when no URL candidate exists and when the rerank
raised — both fall back to the normal flow). -/
structure ChatOracles where
  queryText : Str → Nat → Except Str (List Str)
  queryEmbedding : Str → Nat → Except Str (List (Str × ℚ))
  llm : Str → List Str → Except Str (Option Str)
  ce : Str → Str → ℚ
  locFast : Str → Option Str
  nowUtc : Nat
  todayYear : Nat

inductive ChatTag where
  | locationFast
  | nameGate
  | leadProgress
  | inlinePhone
  | inlineEmail
  | namePrompt
  | pricingPrompt
  | synthesis
  | errorCaught
deriving DecidableEq, Repr

/-- Python truthiness of an optional string (`None` and `""` are falsy). -/
def truthyStrOpt : Option Str → Bool
  | some s => s ≠ []
  | none => false

def ctxOf (s : ChatState) (sid : Str) : Ctx :=
  (dictGet s.conversation_contexts sid).getD emptyCtx

def updFirstBy {α : Type} (p : α → Bool) (f : α → α) : List α → List α
  | [] => []
  | x :: t => if p x then f x :: t else x :: updFirstBy p f t

/-- `LeadValidator` error replies are prefixed with the cross-mark glyph. -/
def crossMark : Str := pyStr "❌ "

/-- `SemanticIntelligentRAG.process_name_collection` (app_20.py 530-569). -/
def process_name_collection (now : Nat) (s : ChatState) (sid input : Str) :
    Bool × Str × ChatState :=
  match dictGet s.name_collection_states sid with
  | none => (false, pyStr "Name collection not initialized.", s)
  | some ns =>
    if ¬ (validate_name (pyStrip input)).1 then
      (false, crossMark ++ (validate_name (pyStrip input)).2
        ++ pyStr " Please provide a valid name.", s)
    else
      (true,
       pyStr "Hey there " ++ pyStrip input ++ pyStr "! What would you like to know about?",
       { s with
         conversation_contexts := dictSet s.conversation_contexts sid
           ({ ctxOf s sid with username := some (pyStrip input) }),
         leads_collection := match s.leads_collection with
           | none => none
           | some l => some (l ++ [⟨pyStrip input, [], [], pyStr "Name collection", sid,
               now, pyStr "name_collection", pyStr "partial", now⟩]),
         name_collection_states := dictSet s.name_collection_states sid
           ({ ns with name_collected := true, waiting_for_name := false }) })

/-- `SemanticIntelligentRAG.should_ask_for_name` (app_20.py 577-591). -/
def should_ask_for_name (s : ChatState) (sid : Str) : Bool :=
  if truthyStrOpt (ctxOf s sid).username then false
  else
    match dictGet s.name_collection_states sid with
    | some ns => if ns.name_collected then false else if ns.waiting_for_name then false else true
    | none => true

/-- `SemanticIntelligentRAG.process_lead_data_step_by_step` (app_20.py
791-886).  The Mongo calls of the final step sit inside a `try` whose
`except` never escapes the method, so the store is a pure list here. -/
def process_lead_data_step_by_step (now : Nat) (s : ChatState) (sid resp : Str) :
    Bool × Str × ChatState :=
  match dictGet s.lead_collection_states sid with
  | none => (false, pyStr "Lead collection not initialized for this session.", s)
  | some st =>
    match st.current_step with
    | .name =>
      if ¬ (validate_name (pyStrip resp)).1 then
        (false, crossMark ++ (validate_name (pyStrip resp)).2 ++ pyStr " Please try again.", s)
      else
        (false, pyStr "Great! Now, could you please provide your phone number?",
         { s with lead_collection_states := dictSet s.lead_collection_states sid ({ st with name := pyStrip resp, current_step := .phone }) })
    | .phone =>
      if ¬ (validate_phone (pyStrip resp)).1 then
        (false, crossMark ++ (validate_phone (pyStrip resp)).2 ++ pyStr " Please try again.", s)
      else
        (false, pyStr "Perfect! Finally, what" ++ apos :: pyStr "s your email address?",
         { s with lead_collection_states := dictSet s.lead_collection_states sid ({ st with phone := pyStrip resp, current_step := .email }) })
    | .email =>
      if ¬ (validate_email (pyStrip resp)).1 then
        (false, crossMark ++ (validate_email (pyStrip resp)).2 ++ pyStr " Please try again.", s)
      else
        match s.leads_collection with
        | none =>
          (true, pyStr "Thank you! We" ++ apos :: pyStr "ll follow up soon.",
           { s with
             lead_collection_states := dictDel
               (dictSet s.lead_collection_states sid ({ st with email := pyStrip resp })) sid,
             conversation_contexts := dictSet s.conversation_contexts sid
               ({ ctxOf s sid with lead_collected := true }) })
        | some l =>
          (true,
           pyStr "Thank you " ++ st.name ++ pyStr "! Your information has been saved. We"
             ++ apos :: pyStr "ll follow up soon regarding your pricing inquiry.",
           { s with
             leads_collection := some (
               if (l.find? fun r => r.session_id = sid).isSome then
                 updFirstBy (fun r => r.session_id = sid) (fun r => { r with phone := st.phone, email := pyStrip resp, original_question := st.original_question, status := pyStr "complete", last_contact := now }) l
               else
                 l ++ [⟨st.name, st.phone, pyStrip resp, st.original_question, sid,
                   now, pyStr "pricing_inquiry", pyStr "complete", now⟩]),
             lead_collection_states := dictDel
               (dictSet s.lead_collection_states sid ({ st with email := pyStrip resp })) sid,
             conversation_contexts := dictSet s.conversation_contexts sid
               ({ ctxOf s sid with lead_collected := true }) })

/-- `SemanticIntelligentRAG.start_lead_collection` (app_20.py 903-914). -/
def start_lead_state (s : ChatState) (sid q : Str) (now : Nat) : LeadState :=
  ⟨q, .phone, ((ctxOf s sid).username).getD [], [], [], now⟩

/-- `SemanticIntelligentRAG.get_lead_collection_request` (app_20.py 920-933). -/
def get_lead_collection_request (s : ChatState) (sid : Str) : Str :=
  match dictGet s.lead_collection_states sid with
  | some st =>
    match st.current_step with
    | .phone =>
      pyStr "I" ++ apos :: pyStr "d be happy to help with pricing"
        ++ (if st.name ≠ [] then pyStr ", " ++ st.name else [])
        ++ pyStr "! Could you please provide your phone number?"
    | .email =>
      pyStr "Perfect"
        ++ (if st.name ≠ [] then ' ' :: st.name else [])
        ++ pyStr "! Finally, what" ++ apos :: pyStr "s your email address?"
    | .name =>
      pyStr "I" ++ apos :: pyStr "d be happy to help with pricing! What" ++ apos
        :: pyStr "s your name?"
  | none => pyStr "Error: Lead collection not initialized."

/-- the analysis dict returned by `analyze_question_semantically` (app_20.py
936-946).  The locally computed `entity_mentions` list is *not* part of the
returned dict; the embedding is opaque and keyed by the question text. -/
structure QuestionAnalysis where
  intent : Str
  intent_confidence : ℚ
  key_concepts : List Str
  question_embedding : Str
  original_question : Str
deriving DecidableEq, Repr

def analyze_question_semantically (q : Str) : QuestionAnalysis :=
  ⟨pyStr "general_inquiry", 1 / 2, pySplitWs q, q, q⟩

/-- `SemanticIntelligentRAG.detect_pricing_inquiry` (app_20.py 1087-1089). -/
def detect_pricing_inquiry (question intent : Str) : Bool :=
  intent = intent &&
  [pyStr "price", pyStr "cost", pyStr "pricing", pyStr "quote", pyStr "rates",
   pyStr "how much"].any fun kw => pyContains (pyLower question) kw

/-- `str(year)`. -/
def natToStr (n : Nat) : Str := Nat.toDigits 10 n

/-- one querying loop of `comprehensive_semantic_retrieval`: each failing
query is skipped (`except/continue`), a non-empty result list extends the
accumulated docs and pairs each doc with the constant distance `d`. -/
def csrQueryFold (O : ChatOracles) (n : Nat) (d : ℚ) (terms : List Str)
    (acc : List Str × List ℚ) : List Str × List ℚ :=
  terms.foldl (fun acc2 term =>
    match O.queryText term n with
    | .error _ => acc2
    | .ok ds => if ds = [] then acc2 else (acc2.1 ++ ds, acc2.2 ++ List.replicate ds.length d))
    acc

/-- the final dedup loop of `comprehensive_semantic_retrieval` (app_20.py
1039-1049): keep non-blank first occurrences, in lockstep with distances. -/
def csrDedup (pairs : List (Str × ℚ)) : List Str × List ℚ :=
  pairs.foldl (fun acc p =>
    if p.1 ≠ [] ∧ pyStrip p.1 ≠ [] ∧ p.1 ∉ acc.1
    then (acc.1 ++ [p.1], acc.2 ++ [p.2]) else acc) ([], [])

/-- `SemanticIntelligentRAG.comprehensive_semantic_retrieval` (app_20.py
948-1055).  The outer `try` turns a raising primary embedding query into
`([], [])`; the word/term/variation loops skip failures individually. -/
def comprehensive_semantic_retrieval (O : ChatOracles) (qa : QuestionAnalysis) :
    List Str × List ℚ :=
  match O.queryEmbedding qa.question_embedding 50 with
  | .error _ => ([], [])
  | .ok pairs0 =>
    let acc1 : List Str × List ℚ := (pairs0.map (·.1), pairs0.map (·.2))
    let question_words := ((pySplitWs qa.original_question).filter
      (fun w => 2 < w.length)).map (fun w => pyStrip (pyLower w))
    let acc2 := csrQueryFold O 25 (7 / 10) question_words acc1
    let oq := pyLower qa.original_question
    let es1 := if [pyStr "founded", pyStr "establish", pyStr "start", pyStr "began",
        pyStr "create"].any (fun w => pyContains oq w) then
      [pyStr "founded", pyStr "established", pyStr "started", pyStr "began",
       pyStr "created", pyStr "inception", pyStr "formation"] else []
    let es2 := if [pyStr "year", pyStr "when", pyStr "date", pyStr "time"].any
        (fun w => pyContains oq w) then
      (List.range 21).map (fun i => natToStr (O.todayYear - 20 + i)) else []
    let es3 := if [pyStr "company", pyStr "business", pyStr "organization"].any
        (fun w => pyContains oq w) then
      [pyStr "company", pyStr "business", pyStr "organization", pyStr "corporation",
       pyStr "firm"] else []
    let es4 := if [pyStr "head", pyStr "ceo", pyStr "leader", pyStr "manager",
        pyStr "director"].any (fun w => pyContains oq w) then
      [pyStr "CEO", pyStr "head", pyStr "director", pyStr "manager", pyStr "leader",
       pyStr "president", pyStr "founder"] else []
    let expanded := (es1 ++ es2 ++ es3 ++ es4 ++ qa.key_concepts).filter
      (fun t => 1 < t.length)
    let acc3 := csrQueryFold O 20 (4 / 5) expanded acc2
    let variations := [qa.original_question,
      pyStrip (pyReplace (pyStr "is") [] (pyReplace (pyStr "was") [] qa.original_question)),
      pyJoinChar ' ' question_words].filter (fun v => v ≠ [] ∧ 3 < v.length)
    let acc4 := csrQueryFold O 40 (9 / 10) variations acc3
    let dd := csrDedup (List.zip acc4.1 acc4.2)
    (dd.1.take 80, dd.2.take 80)

/-- `SemanticIntelligentRAG._store_source_snippets` (app_20.py 1279-1296). -/
def storeSnippetsGo : List Str → List Str → List Str
  | [], acc => acc.reverse
  | d :: ds, acc =>
    if 5 ≤ acc.length then acc.reverse
    else if d = [] then storeSnippetsGo ds acc
    else storeSnippetsGo ds
      ((if 240 < (pyStrip d).length
        then rightTrim ((pyStrip d).take 240) ++ pyStr "..."
        else pyStrip d) :: acc)

def storeSnippets (documents : List Str) : List Str := storeSnippetsGo documents []

/-- `SemanticIntelligentRAG.get_recent_sources` (app_20.py 1298-1300). -/
def get_recent_sources (s : ChatState) (sid : Str) : List Str :=
  ((dictGet s.last_sources_by_session sid).getD []).take 3

/-- the inline-phone `update_one({"session_id": sid, "status": "partial"},
{"$set": ...})` of app_20.py 1464-1474 (no upsert: at most the first match
is edited, no match leaves the store unchanged). -/
def leadPhoneUpdate (leads : Option (List LeadRec)) (sid phone opq : Str)
    (now : Nat) : Option (List LeadRec) :=
  match leads with
  | none => none
  | some l => some (updFirstBy
      (fun r => r.session_id = sid && r.status = pyStr "partial")
      (fun r => { r with phone := phone, original_question := opq, status := pyStr "phone_collected", last_contact := now }) l)

/-- the inline-email `update_one({"session_id": sid}, {"$set": ...})` of
app_20.py 1497-1508. -/
def leadEmailUpdate (leads : Option (List LeadRec)) (sid email opq : Str)
    (now : Nat) : Option (List LeadRec) :=
  match leads with
  | none => none
  | some l => some (updFirstBy
      (fun r => r.session_id = sid)
      (fun r => { r with email := email, original_question := opq, status := pyStr "complete", last_contact := now }) l)

def msgPhoneSaved : Str :=
  pyStr "Great! I" ++ apos
    :: pyStr "ve saved your phone number. Could you please provide your email address?"

def msgEmailSaved : Str :=
  pyStr "Perfect! I" ++ apos
    :: pyStr "ve saved your email address. We will contact you soon regarding your queries"

def msgNamePrompt : Str := pyStr "Before we continue, may I have your name please?"

/-- `str(KeyError(session_id))` — the session id in single quotes. -/
def keyErrStr (sid : Str) : Str := apos :: (sid ++ [apos])

/-- retrieval, rerank, synthesis and bookkeeping — the tail of `chat`
(app_20.py 1552-1646).  Pass 3 is skipped: `analyze_question_semantically`
returns no `entity_mentions` key, so `entities` defaults to `[]`. -/
def chatRetrieve (O : ChatOracles) (s : ChatState) (q sid : Str)
    (qa : QuestionAnalysis) : Except (Str × ChatState) (Str × ChatState × ChatTag) :=
  let nq := pyRStripChars (pyStr "?.!,;") qa.original_question
  let all1 := (((comprehensive_semantic_retrieval O qa).1.take 50)).foldl addOrdered []
  let all2 := match O.queryText nq 50 with
    | .error _ => all1
    | .ok ds => if ds = [] then all1 else ds.foldl addOrdered all1
  let reranked := smart_rerank_candidates O.ce nq all2 (some 40)
  let ans := synthesize_comprehensive_answer qa.original_question reranked
    (O.llm qa.original_question reranked)
  let s1 := { s with last_sources_by_session := dictSet s.last_sources_by_session sid (storeSnippets reranked) }
  let s2 := { s1 with conversation_contexts := dictSet s1.conversation_contexts sid ({ ctxOf s1 sid with last_question := some q, last_answer := some ans }) }
  let s3 := match dictGet s2.name_collection_states sid with
    | some ns => { s2 with name_collection_states := dictSet s2.name_collection_states sid ({ ns with question_count := ns.question_count + 1 }) }
    | none => s2
  .ok (ans, s3, .synthesis)

/-- pricing detection and lead-collection start (app_20.py 1530-1550). -/
def chatAnalyze (O : ChatOracles) (s : ChatState) (q sid : Str) :
    Except (Str × ChatState) (Str × ChatState × ChatTag) :=
  if detect_pricing_inquiry q (analyze_question_semantically q).intent then
    let s1 := if (ctxOf s sid).original_pricing_question = none
      then { s with conversation_contexts := dictSet s.conversation_contexts sid ({ ctxOf s sid with original_pricing_question := some q }) }
      else s
    if (ctxOf s1 sid).lead_collected then
      chatRetrieve O s1 q sid (analyze_question_semantically q)
    else
      let s2 := { s1 with lead_collection_states := dictSet s1.lead_collection_states sid (start_lead_state s1 sid q O.nowUtc) }
      .ok (get_lead_collection_request s2 sid, s2, .pricingPrompt)
  else chatRetrieve O s q sid (analyze_question_semantically q)

/-- the name prompt gate (app_20.py 1521-1528). -/
def chatName (O : ChatOracles) (s : ChatState) (q sid : Str) :
    Except (Str × ChatState) (Str × ChatState × ChatTag) :=
  if ¬ truthyStrOpt (ctxOf s sid).username then
    if should_ask_for_name s sid then
      .ok (msgNamePrompt,
        { s with name_collection_states := dictSet s.name_collection_states sid ⟨true, false, 0⟩ },
        .namePrompt)
    else chatAnalyze O s q sid
  else chatAnalyze O s q sid

/-- inline contact submission (app_20.py 1448-1518).  The email branch's
`conversation_contexts[session_id]['lead_collected'] = True` raises
`KeyError` when the session has no context dict (line 1514). -/
def chatContact (O : ChatOracles) (s : ChatState) (q sid : Str) :
    Except (Str × ChatState) (Str × ChatState × ChatTag) :=
  if (extract_contact_info q).has_contact then
    match (extract_contact_info q).phones with
    | p :: _ =>
      if ¬ (validate_phone p).1 then
        .ok (crossMark ++ (validate_phone p).2 ++ pyStr " Please try again.", s, .inlinePhone)
      else
        let s1 := { s with leads_collection := leadPhoneUpdate s.leads_collection sid p ((ctxOf s sid).original_pricing_question.getD q) O.nowUtc }
        .ok (msgPhoneSaved,
          { s1 with conversation_contexts := dictSet s1.conversation_contexts sid ({ ctxOf s1 sid with phone := some p }) },
          .inlinePhone)
    | [] =>
      match (extract_contact_info q).emails with
      | e :: _ =>
        if ¬ (validate_email e).1 then
          .ok (crossMark ++ (validate_email e).2 ++ pyStr " Please try again.", s, .inlineEmail)
        else
          let s1 := { s with leads_collection := leadEmailUpdate s.leads_collection sid e ((ctxOf s sid).original_pricing_question.getD q) O.nowUtc }
          match dictGet s1.conversation_contexts sid with
          | none => .error (keyErrStr sid, s1)
          | some ctx =>
            .ok (msgEmailSaved,
              { s1 with conversation_contexts := dictSet s1.conversation_contexts sid ({ ctx with lead_collected := true, email := some e }) },
              .inlineEmail)
      | [] => chatName O s q sid
  else chatName O s q sid

/-- the lead-collection hard gate (app_20.py 1437-1441). -/
def chatLead (O : ChatOracles) (s : ChatState) (q sid : Str) :
    Except (Str × ChatState) (Str × ChatState × ChatTag) :=
  match dictGet s.lead_collection_states sid with
  | some _ =>
    .ok ((process_lead_data_step_by_step O.nowUtc s sid q).2.1,
         (process_lead_data_step_by_step O.nowUtc s sid q).2.2, .leadProgress)
  | none => chatContact O s q sid

/-- the name-collection gate (app_20.py 1430-1434). -/
def chatGate (O : ChatOracles) (s : ChatState) (q sid : Str) :
    Except (Str × ChatState) (Str × ChatState × ChatTag) :=
  match dictGet s.name_collection_states sid with
  | some ns =>
    if ns.waiting_for_name then
      .ok ((process_name_collection O.nowUtc s sid q).2.1,
           (process_name_collection O.nowUtc s sid q).2.2, .nameGate)
    else chatLead O s q sid
  | none => chatLead O s q sid

/-- the body of `chat`'s `try` (app_20.py 1361-1646), starting with the
location fast path. -/
def chatTry (O : ChatOracles) (s : ChatState) (q sid : Str) :
    Except (Str × ChatState) (Str × ChatState × ChatTag) :=
  if is_location_query q then
    match O.locFast q with
    | some ans => .ok (ans, s, .locationFast)
    | none => chatGate O s q sid
  else chatGate O s q sid

def msgApologyPre : Str :=
  pyStr "I apologize, but I encountered an error while processing your question: "

/-- `SemanticIntelligentRAG.chat` (app_20.py 1353-1653): pops the session's
stored sources *before* the `try`, then runs the dispatch; an uncaught
exception inside the body is answered with the apology string. -/
def chat (O : ChatOracles) (s0 : ChatState) (q sid : Str) : Str × ChatState × ChatTag :=
  match chatTry O { s0 with last_sources_by_session := dictDel s0.last_sources_by_session sid } q sid with
  | .ok r => r
  | .error (e, s1) => (msgApologyPre ++ e, s1, .errorCaught)

lemma updFirstBy_eq_self {α : Type} (p : α → Bool) (f : α → α) (l : List α)
    (h : ∀ x ∈ l, p x = false) : updFirstBy p f l = l := by
  induction l with
  | nil => rfl
  | cons a t ih =>
    rw [updFirstBy, if_neg (by rw [h a (by simp)]; simp)]
    rw [ih (fun x hx => h x (by simp [hx]))]

/-- C2 (amended): on a fresh session (no name-collection state, no
lead-collection state, no conversation context, no partial lead), the
message `"my number is 415-555-2671"` is captured by the *inline contact
submission* step, which runs before the name gate: the phone is extracted
and validated, the reply asks for the email (not for the name), the phone
is stored in the session context, and the lead store is unchanged (the
`update_one` filter `{session_id, status: "partial"}` matches nothing and
does not upsert). -/
theorem chat_inline_phone (O : ChatOracles) (s : ChatState) (sid : Str)
    (h1 : dictGet s.name_collection_states sid = none)
    (h2 : dictGet s.lead_collection_states sid = none)
    (h3 : dictGet s.conversation_contexts sid = none)
    (h4 : ∀ l, s.leads_collection = some l → ∀ r ∈ l,
        ¬ (r.session_id = sid ∧ r.status = pyStr "partial")) :
    chat O s (pyStr "my number is 415-555-2671") sid
      = (msgPhoneSaved,
         { s with
           last_sources_by_session := dictDel s.last_sources_by_session sid,
           conversation_contexts := dictSet s.conversation_contexts sid ({ emptyCtx with phone := some (pyStr "415-555-2671") }) },
         .inlinePhone)
    ∧ msgPhoneSaved ≠ msgNamePrompt
    ∧ (validate_phone (pyStr "415-555-2671")).1 = true := by
  have hq_loc : is_location_query (pyStr "my number is 415-555-2671") = false := by decide
  have hci : extract_contact_info (pyStr "my number is 415-555-2671")
      = ⟨true, [], [pyStr "415-555-2671"], []⟩ := by decide
  have hvp : (validate_phone (pyStr "415-555-2671")).1 = true := by decide
  refine ⟨?_, by decide, hvp⟩
  obtain ⟨cc, ncs, lcs, lss, lc⟩ := s
  try dsimp only at h1
  try dsimp only at h2
  try dsimp only at h3
  try dsimp only at h4
  try dsimp only
  have hleads : leadPhoneUpdate lc sid (pyStr "415-555-2671")
      ((ctxOf ⟨cc, ncs, lcs, dictDel lss sid, lc⟩ sid).original_pricing_question.getD
        (pyStr "my number is 415-555-2671")) O.nowUtc = lc := by
    cases lc with
    | none => rfl
    | some l =>
      rw [leadPhoneUpdate]
      rw [updFirstBy_eq_self _ _ l ?_]
      intro r hr
      have hnr := h4 l rfl r hr
      by_cases hP : r.session_id = sid
      · have hQ : ¬ r.status = pyStr "partial" := fun hq => hnr ⟨hP, hq⟩
        simp [hP, hQ]
      · simp [hP]
  rw [chat]
  rw [chatTry, if_neg (by rw [hq_loc]; simp)]
  rw [chatGate]
  dsimp only
  rw [h1]
  rw [chatLead]
  dsimp only
  rw [h2]
  rw [chatContact, hci]
  dsimp only
  rw [if_neg (show ¬ ¬ ((validate_phone (pyStr "415-555-2671")).1 = true) from by decide)]
  try dsimp only
  rw [hleads]
  have hctx : ctxOf ⟨cc, ncs, lcs, dictDel lss sid, lc⟩ sid = emptyCtx := by
    rw [ctxOf]
    dsimp only
    rw [h3]
    rfl
  rw [hctx]
  rfl

/-- C2 (counterexample): on a completely fresh session, the reply to
`"my number is 415-555-2671"` is not the name prompt, and the phone has
been validated and stored in the session context — the name gate did not
fire first. -/
theorem chat_phone_counterexample :
    (chat ⟨fun _ _ => .ok [], fun _ _ => .ok [], fun _ _ => .ok none, fun _ _ => 0,
        fun _ => none, 0, 2020⟩ ⟨[], [], [], [], none⟩
        (pyStr "my number is 415-555-2671") (pyStr "default")).1 ≠ msgNamePrompt
    ∧ ((dictGet (chat ⟨fun _ _ => .ok [], fun _ _ => .ok [], fun _ _ => .ok none,
        fun _ _ => 0, fun _ => none, 0, 2020⟩ ⟨[], [], [], [], none⟩
        (pyStr "my number is 415-555-2671") (pyStr "default")).2.1.conversation_contexts
        (pyStr "default")).getD emptyCtx).phone = some (pyStr "415-555-2671") :=
  ⟨by decide, by decide⟩

/-- C2 (witness): the amended theorem applied to the empty engine state. -/
theorem chat_inline_phone_witness :
    dictGet ([] : List (Str × NameState)) (pyStr "default") = none
    ∧ dictGet ([] : List (Str × LeadState)) (pyStr "default") = none
    ∧ dictGet ([] : List (Str × Ctx)) (pyStr "default") = none
    ∧ (chat ⟨fun _ _ => .ok [], fun _ _ => .ok [], fun _ _ => .ok none, fun _ _ => 0,
          fun _ => none, 0, 2020⟩ ⟨[], [], [], [], none⟩
          (pyStr "my number is 415-555-2671") (pyStr "default")
        = (msgPhoneSaved,
           { conversation_contexts := dictSet [] (pyStr "default")
               ({ emptyCtx with phone := some (pyStr "415-555-2671") }),
             name_collection_states := [],
             lead_collection_states := [],
             last_sources_by_session := dictDel [] (pyStr "default"),
             leads_collection := none },
           .inlinePhone)
       ∧ msgPhoneSaved ≠ msgNamePrompt
       ∧ (validate_phone (pyStr "415-555-2671")).1 = true) :=
  ⟨by decide, by decide, by decide,
   chat_inline_phone ⟨fun _ _ => .ok [], fun _ _ => .ok [], fun _ _ => .ok none,
       fun _ _ => 0, fun _ => none, 0, 2020⟩ ⟨[], [], [], [], none⟩ (pyStr "default")
     (by decide) (by decide) (by decide) (fun l hl => Option.noConfusion hl)⟩

/-! frame analysis of `last_sources_by_session` through the chat dispatch -/

lemma storeSnippetsGo_len : ∀ (ds acc : List Str), acc.length ≤ 5 →
    (storeSnippetsGo ds acc).length ≤ 5 := by
  intro ds
  induction ds with
  | nil =>
    intro acc h
    simpa [storeSnippetsGo] using h
  | cons d ds ih =>
    intro acc h
    rw [storeSnippetsGo]
    split
    · simpa using h
    · split
      · exact ih acc h
      · refine ih _ ?_
        simp only [List.length_cons]
        omega

lemma rightTrim_len_le (s : Str) : (rightTrim s).length ≤ s.length := by
  rw [rightTrim]
  have h := (List.dropWhile_suffix (l := s.reverse) (p := pyIsSpace)).length_le
  rw [List.length_reverse] at h
  rw [List.length_reverse]
  exact h

lemma storeSnippetsGo_each : ∀ (ds acc : List Str), (∀ x ∈ acc, x.length ≤ 243) →
    ∀ x ∈ storeSnippetsGo ds acc, x.length ≤ 243 := by
  intro ds
  induction ds with
  | nil =>
    intro acc h x hx
    rw [storeSnippetsGo] at hx
    exact h x (List.mem_reverse.mp hx)
  | cons d ds ih =>
    intro acc h x hx
    rw [storeSnippetsGo] at hx
    split at hx
    · exact h x (List.mem_reverse.mp hx)
    · split at hx
      · exact ih acc h x hx
      · refine ih _ ?_ x hx
        intro y hy
        rcases List.mem_cons.mp hy with rfl | hy
        · split
          · next hlong =>
            rw [List.length_append]
            have h1 := rightTrim_len_le ((pyStrip d).take 240)
            have h2 : ((pyStrip d).take 240).length ≤ 240 := by
              simp
            have h3 : (pyStr "...").length = 3 := by decide
            omega
          · next hshort =>
            omega
        · exact h y hy

lemma storeSnippets_len (ds : List Str) : (storeSnippets ds).length ≤ 5 :=
  storeSnippetsGo_len ds [] (by simp)

lemma storeSnippets_each (ds : List Str) : ∀ x ∈ storeSnippets ds, x.length ≤ 243 :=
  storeSnippetsGo_each ds [] (by intro x hx; simp at hx)

/-- the effect of a dispatch step on the session's stored sources: an
early return leaves them untouched, the synthesis branch installs at most
five snippets of at most 243 characters, an escaping exception leaves them
untouched. -/
def SourcesSpec (sid : Str) (s : ChatState)
    (res : Except (Str × ChatState) (Str × ChatState × ChatTag)) : Prop :=
  (∀ a s1 t, res = .ok (a, s1, t) →
     (t ≠ ChatTag.synthesis →
        s1.last_sources_by_session = s.last_sources_by_session)
     ∧ (t = ChatTag.synthesis → ∃ snips,
          s1.last_sources_by_session = dictSet s.last_sources_by_session sid snips
          ∧ snips.length ≤ 5 ∧ ∀ x ∈ snips, x.length ≤ 243))
  ∧ ∀ e s1, res = .error (e, s1) →
      s1.last_sources_by_session = s.last_sources_by_session

lemma sourcesSpec_ok_untouched {sid : Str} {s : ChatState} {a : Str} {s1 : ChatState}
    {t : ChatTag} (h : s1.last_sources_by_session = s.last_sources_by_session)
    (ht : t ≠ ChatTag.synthesis) : SourcesSpec sid s (.ok (a, s1, t)) := by
  constructor
  · intro a2 s2 t2 hr
    rw [Except.ok.injEq, Prod.mk.injEq, Prod.mk.injEq] at hr
    obtain ⟨rfl, rfl, rfl⟩ := hr
    exact ⟨fun _ => h, fun he => absurd he ht⟩
  · intro e s2 hr
    exact absurd hr (by simp)

lemma sourcesSpec_error_untouched {sid : Str} {s : ChatState} {e : Str} {s1 : ChatState}
    (h : s1.last_sources_by_session = s.last_sources_by_session) :
    SourcesSpec sid s (.error (e, s1)) := by
  constructor
  · intro a2 s2 t2 hr
    exact absurd hr (by simp)
  · intro e2 s2 hr
    rw [Except.error.injEq, Prod.mk.injEq] at hr
    obtain ⟨rfl, rfl⟩ := hr
    exact h

lemma sourcesSpec_of_eq {sid : Str} {s s1 : ChatState}
    {res : Except (Str × ChatState) (Str × ChatState × ChatTag)}
    (h : SourcesSpec sid s1 res)
    (he : s1.last_sources_by_session = s.last_sources_by_session) :
    SourcesSpec sid s res := by
  obtain ⟨hok, herr⟩ := h
  constructor
  · intro a s2 t hr
    refine ⟨fun ht => ((hok a s2 t hr).1 ht).trans he, fun ht => ?_⟩
    obtain ⟨sn, h1, h2, h3⟩ := (hok a s2 t hr).2 ht
    exact ⟨sn, by rw [h1, he], h2, h3⟩
  · intro e s2 hr
    exact (herr e s2 hr).trans he

lemma pnc_sources (now : Nat) (s : ChatState) (sid input : Str) :
    (process_name_collection now s sid input).2.2.last_sources_by_session
      = s.last_sources_by_session := by
  unfold process_name_collection
  split
  · rfl
  · split
    · rfl
    · rfl

lemma pld_sources (now : Nat) (s : ChatState) (sid resp : Str) :
    (process_lead_data_step_by_step now s sid resp).2.2.last_sources_by_session
      = s.last_sources_by_session := by
  unfold process_lead_data_step_by_step
  repeat' split
  all_goals rfl

lemma chatRetrieve_sources (O : ChatOracles) (s : ChatState) (q sid : Str)
    (qa : QuestionAnalysis) : SourcesSpec sid s (chatRetrieve O s q sid qa) := by
  constructor
  · intro a s1 t hr
    simp only [chatRetrieve] at hr
    rw [Except.ok.injEq, Prod.mk.injEq, Prod.mk.injEq] at hr
    obtain ⟨ha, hs, htag⟩ := hr
    constructor
    · intro hne
      exact absurd htag.symm hne
    · intro _
      split at hs
      · rw [← hs]
        exact ⟨_, rfl, storeSnippets_len _, storeSnippets_each _⟩
      · rw [← hs]
        exact ⟨_, rfl, storeSnippets_len _, storeSnippets_each _⟩
  · intro e s1 hr
    simp only [chatRetrieve] at hr
    exact absurd hr (by simp)

lemma chatAnalyze_sources (O : ChatOracles) (s : ChatState) (q sid : Str) :
    SourcesSpec sid s (chatAnalyze O s q sid) := by
  rw [chatAnalyze]
  by_cases hpr : detect_pricing_inquiry q (analyze_question_semantically q).intent = true
  · rw [if_pos hpr]
    set s1 := (if (ctxOf s sid).original_pricing_question = none
      then { s with conversation_contexts := dictSet s.conversation_contexts sid ({ ctxOf s sid with original_pricing_question := some q }) }
      else s) with hs1def
    have hs1 : s1.last_sources_by_session = s.last_sources_by_session := by
      rw [hs1def]
      split
      · rfl
      · rfl
    dsimp only
    split
    · exact sourcesSpec_of_eq (chatRetrieve_sources O s1 q sid _) hs1
    · exact sourcesSpec_ok_untouched hs1 (by decide)
  · rw [if_neg hpr]
    exact chatRetrieve_sources O s q sid _

lemma chatName_sources (O : ChatOracles) (s : ChatState) (q sid : Str) :
    SourcesSpec sid s (chatName O s q sid) := by
  rw [chatName]
  split
  · split
    · exact sourcesSpec_ok_untouched rfl (by decide)
    · exact chatAnalyze_sources O s q sid
  · exact chatAnalyze_sources O s q sid

lemma chatContact_sources (O : ChatOracles) (s : ChatState) (q sid : Str) :
    SourcesSpec sid s (chatContact O s q sid) := by
  rw [chatContact]
  split
  · split
    · split
      · exact sourcesSpec_ok_untouched rfl (by decide)
      · exact sourcesSpec_ok_untouched rfl (by decide)
    · split
      · split
        · exact sourcesSpec_ok_untouched rfl (by decide)
        · dsimp only
          split
          · exact sourcesSpec_error_untouched rfl
          · exact sourcesSpec_ok_untouched rfl (by decide)
      · exact chatName_sources O s q sid
  · exact chatName_sources O s q sid

lemma chatLead_sources (O : ChatOracles) (s : ChatState) (q sid : Str) :
    SourcesSpec sid s (chatLead O s q sid) := by
  rw [chatLead]
  split
  · exact sourcesSpec_ok_untouched (pld_sources O.nowUtc s sid q) (by decide)
  · exact chatContact_sources O s q sid

lemma chatGate_sources (O : ChatOracles) (s : ChatState) (q sid : Str) :
    SourcesSpec sid s (chatGate O s q sid) := by
  rw [chatGate]
  split
  · split
    · exact sourcesSpec_ok_untouched (pnc_sources O.nowUtc s sid q) (by decide)
    · exact chatLead_sources O s q sid
  · exact chatLead_sources O s q sid

lemma chatTry_sources (O : ChatOracles) (s : ChatState) (q sid : Str) :
    SourcesSpec sid s (chatTry O s q sid) := by
  rw [chatTry]
  split
  · split
    · exact sourcesSpec_ok_untouched rfl (by decide)
    · exact chatGate_sources O s q sid
  · exact chatGate_sources O s q sid

/-- C10: `chat` pops the session's stored sources before dispatching; only
the retrieval-and-synthesis branch stores new ones (at most five snippets,
each at most 240 characters plus a three-character ellipsis), so after a
call returning via the location fast path, the name gate, lead-collection
progress, inline contact submission, the name prompt or the pricing
prompt, the recent-sources accessor for that session returns `[]`. -/
theorem chat_sources_frame (O : ChatOracles) (s0 : ChatState) (q sid : Str) :
    (((chat O s0 q sid).2.2 = ChatTag.locationFast
      ∨ (chat O s0 q sid).2.2 = ChatTag.nameGate
      ∨ (chat O s0 q sid).2.2 = ChatTag.leadProgress
      ∨ (chat O s0 q sid).2.2 = ChatTag.inlinePhone
      ∨ (chat O s0 q sid).2.2 = ChatTag.inlineEmail
      ∨ (chat O s0 q sid).2.2 = ChatTag.namePrompt
      ∨ (chat O s0 q sid).2.2 = ChatTag.pricingPrompt) →
      get_recent_sources (chat O s0 q sid).2.1 sid = [])
    ∧ ((chat O s0 q sid).2.2 = ChatTag.synthesis →
        ∃ snips, dictGet (chat O s0 q sid).2.1.last_sources_by_session sid = some snips
          ∧ snips.length ≤ 5 ∧ ∀ x ∈ snips, x.length ≤ 243) := by
  have hspec := chatTry_sources O
    { s0 with last_sources_by_session := dictDel s0.last_sources_by_session sid } q sid
  cases hres : chatTry O
      { s0 with last_sources_by_session := dictDel s0.last_sources_by_session sid } q sid with
  | ok r =>
    rcases r with ⟨a, s1, t⟩
    have hchat : chat O s0 q sid = (a, s1, t) := by
      rw [chat, hres]
    have hok := hspec.1 a s1 t hres
    rw [hchat]
    dsimp only
    constructor
    · intro hdisj
      have htne : t ≠ ChatTag.synthesis := by
        rcases hdisj with h | h | h | h | h | h | h <;> (rw [h]; decide)
      have hlss := hok.1 htne
      rw [get_recent_sources, hlss]
      show (((dictGet (dictDel s0.last_sources_by_session sid) sid).getD []).take 3) = []
      rw [dictGet_dictDel]
      rfl
    · intro hsyn
      obtain ⟨snips, h1, h2, h3⟩ := hok.2 hsyn
      refine ⟨snips, ?_, h2, h3⟩
      rw [h1]
      show dictGet (dictSet (dictDel s0.last_sources_by_session sid) sid snips) sid
        = some snips
      exact dictGet_dictSet _ _ _
  | error p =>
    rcases p with ⟨e, s1⟩
    have hchat : chat O s0 q sid = (msgApologyPre ++ e, s1, ChatTag.errorCaught) := by
      rw [chat, hres]
    rw [hchat]
    dsimp only
    constructor
    · intro hdisj
      exfalso
      rcases hdisj with h | h | h | h | h | h | h <;> exact absurd h (by decide)
    · intro hsyn
      exact absurd hsyn (by decide)

/-- C10 (witness): a fresh-session `"hello"` call returns via the name
prompt and the recent sources are empty. -/
theorem chat_sources_frame_witness :
    ((chat ⟨fun _ _ => .ok [], fun _ _ => .ok [], fun _ _ => .ok none, fun _ _ => 0,
        fun _ => none, 0, 2020⟩ ⟨[], [], [], [], none⟩ (pyStr "hello")
        (pyStr "default")).2.2 = ChatTag.namePrompt)
    ∧ get_recent_sources (chat ⟨fun _ _ => .ok [], fun _ _ => .ok [],
        fun _ _ => .ok none, fun _ _ => 0, fun _ => none, 0, 2020⟩
        ⟨[], [], [], [], none⟩ (pyStr "hello") (pyStr "default")).2.1 (pyStr "default")
        = [] :=
  ⟨by decide,
   (chat_sources_frame ⟨fun _ _ => .ok [], fun _ _ => .ok [], fun _ _ => .ok none,
       fun _ _ => 0, fun _ => none, 0, 2020⟩ ⟨[], [], [], [], none⟩
       (pyStr "hello") (pyStr "default")).1
     (Or.inr (Or.inr (Or.inr (Or.inr (Or.inr (Or.inl (by decide)))))))⟩

/-- C9: the chat entry point is exception-safe: its `try` body either
completes (and `chat` forwards the result unchanged) or raises (modelled by
the `Except` error channel, e.g. the `KeyError` of the inline-email branch
on a fresh session), in which case `chat` swallows the exception and
answers with the apology string naming the error — it never propagates. -/
theorem chat_never_throws (O : ChatOracles) (s0 : ChatState) (q sid : Str) :
    (∃ r, chatTry O { s0 with last_sources_by_session := dictDel s0.last_sources_by_session sid } q sid = .ok r
        ∧ chat O s0 q sid = r)
    ∨ (∃ e s1, chatTry O { s0 with last_sources_by_session := dictDel s0.last_sources_by_session sid } q sid = .error (e, s1)
        ∧ chat O s0 q sid = (msgApologyPre ++ e, s1, ChatTag.errorCaught)) := by
  cases hres : chatTry O
      { s0 with last_sources_by_session := dictDel s0.last_sources_by_session sid } q sid with
  | ok r =>
    left
    exact ⟨r, rfl, by rw [chat, hres]⟩
  | error p =>
    right
    rcases p with ⟨e, s1⟩
    exact ⟨e, s1, rfl, by rw [chat, hres]⟩
